import Mathlib

/-!
Verification of the musiclinter repository against its specification.

Python strings are modelled as lists of Unicode characters (`PyStr`),
which matches Python's view of `str` as a sequence of code points.
The namespaces mirror the source files:

* `Py`     — Python string/`os.path` primitives used by the sources.
* `Dates`  — `src/musiclinter/dates.py`.
* `Dir`    — `src/musiclinter/directory.py` (classifier and directory state).
* `Covers` — `src/musiclinter/covers.py`.
* `Pkg`    — `src/musiclinter/cue.py` (package cue linter).
* `Script` — `src/musiclinter.py` (single-file implementation; it contains
  the complete cue parse/repair algorithm `process_cue_data`).

External collaborators (the `chardet` encoding detector, byte decoding,
the filesystem) are modelled as explicit inputs and as lists of performed
filesystem actions, following the external-interface section of the spec.
-/

namespace Py

/-- Python strings as sequences of code points. -/
abbrev PyStr := List Char

/-- Characters for which Python `str.isspace()` holds (the set used by
`str.strip()`). -/
def isSpaceCh (c : Char) : Bool :=
  c.toNat ∈ [0x9, 0xa, 0xb, 0xc, 0xd, 0x1c, 0x1d, 0x1e, 0x1f, 0x20, 0x85,
    0xa0, 0x1680, 0x2000, 0x2001, 0x2002, 0x2003, 0x2004, 0x2005, 0x2006,
    0x2007, 0x2008, 0x2009, 0x200a, 0x2028, 0x2029, 0x202f, 0x205f, 0x3000]

/-- Line boundary characters of Python `str.splitlines()`. -/
def isLineBreakCh (c : Char) : Bool :=
  c.toNat ∈ [0xa, 0xb, 0xc, 0xd, 0x1c, 0x1d, 0x1e, 0x85, 0x2028, 0x2029]

/-- Python `s.lstrip()`. -/
def lstripL (s : PyStr) : PyStr := s.dropWhile isSpaceCh

/-- Python `s.rstrip()`. -/
def rstripL (s : PyStr) : PyStr := (s.reverse.dropWhile isSpaceCh).reverse

/-- Python `s.strip()`. -/
def stripL (s : PyStr) : PyStr := rstripL (lstripL s)

/-- Helper for `splitlinesL`: accumulates the current line (reversed). -/
def splitlinesGo (cur : PyStr) : PyStr → List PyStr
  | [] => if cur.isEmpty then [] else [cur.reverse]
  | [c] => if isLineBreakCh c then [cur.reverse] else [(c :: cur).reverse]
  | c :: c2 :: rest =>
    if c = '\r' ∧ c2 = '\n' then cur.reverse :: splitlinesGo [] rest
    else if isLineBreakCh c then cur.reverse :: splitlinesGo [] (c2 :: rest)
    else splitlinesGo (c :: cur) (c2 :: rest)

/-- Python `s.splitlines()`: split at line boundaries, `"\r\n"` counts as a
single boundary, and a trailing boundary does not produce a final empty
line. -/
def splitlinesL (s : PyStr) : List PyStr := splitlinesGo [] s

/-- Helper for `splitCharL`. -/
def splitCharGo (sep : Char) (cur : PyStr) : PyStr → List PyStr
  | [] => [cur.reverse]
  | c :: cs =>
    if c = sep then cur.reverse :: splitCharGo sep [] cs
    else splitCharGo sep (c :: cur) cs

/-- Python `s.split(sep)` for a one-character separator: keeps empty
fields, and the split of the empty string is `[""]`. -/
def splitCharL (sep : Char) (s : PyStr) : List PyStr := splitCharGo sep [] s

/-- Index of the last character satisfying `p`, if any. -/
def rfindIdx (p : Char → Bool) (s : PyStr) : Option Nat :=
  match s with
  | [] => none
  | c :: cs =>
    match rfindIdx p cs with
    | some i => some (i + 1)
    | none => if p c then some 0 else none

/-- Python `os.path.splitext` (posix): split off the final extension of the
last path component, except when the component consists of leading dots
only. -/
def splitextL (s : PyStr) : PyStr × PyStr :=
  match rfindIdx (· = '.') s with
  | none => (s, [])
  | some d =>
    let start := match rfindIdx (· = '/') s with
      | none => 0
      | some i => i + 1
    if start ≤ d ∧ ((s.drop start).take (d - start)).any (· ≠ '.') then
      (s.take d, s.drop d)
    else (s, [])

/-- Python `str.lower()` restricted to ASCII letters (the extensions and
cover names compared in this program are ASCII). -/
def lowerL (s : PyStr) : PyStr := s.map Char.toLower

/-- Numeric value of a run of decimal digits; Python `int(s)` on such a
run. -/
def digitsToNat (s : PyStr) : Nat :=
  s.foldl (fun n c => n * 10 + (c.toNat - '0'.toNat)) 0

/-- Fuelled worker for `replaceAllL`; the fuel is an upper bound on the
string length, so the top-level wrapper is total and computable by the
kernel. -/
def replaceFuel (pat rep : PyStr) : Nat → PyStr → PyStr
  | 0, s => s
  | fuel + 1, s =>
    if ¬ pat.isEmpty ∧ pat.isPrefixOf s then
      rep ++ replaceFuel pat rep fuel (s.drop pat.length)
    else
      match s with
      | [] => []
      | c :: cs => c :: replaceFuel pat rep fuel cs

/-- Python `s.replace(pat, rep)`: replace all non-overlapping occurrences,
scanning left to right.  (Python's special behaviour for an empty `pat` is
not modelled; the single call site guards `pat` to be non-empty.) -/
def replaceAllL (pat rep s : PyStr) : PyStr := replaceFuel pat rep s.length s

/-- Join lines with `'\n'` (the canonical form of a text document used in
the round-trip theorems). -/
def joinLines : List PyStr → PyStr
  | [] => []
  | [l] => l
  | l :: l2 :: rest => l ++ '\n' :: joinLines (l2 :: rest)

/-- The newline-terminated blocks before a distinguished line: the shape
of the prefix of a joined document (used to reason about where a pattern
can occur inside `joinLines`). -/
def blocksL : List PyStr → PyStr
  | [] => []
  | l :: ls => l ++ '\n' :: blocksL ls

/-- Python `os.path.dirname` (posix). -/
def dirnameL (p : PyStr) : PyStr :=
  let i := match rfindIdx (· = '/') p with
    | none => 0
    | some j => j + 1
  let head := p.take i
  if ¬ head.isEmpty ∧ head.any (· ≠ '/') then
    (head.reverse.dropWhile (· = '/')).reverse
  else head

/-- Python `os.path.basename` (posix). -/
def basenameL (p : PyStr) : PyStr :=
  match rfindIdx (· = '/') p with
  | none => p
  | some j => p.drop (j + 1)

/-- Truthiness of an optional Python string: `None` and `""` are falsy. -/
def strTruthy : Option PyStr → Bool
  | none => false
  | some s => ¬ s.isEmpty

/-- Decimal rendering of a natural number, as Python `str(n)`. -/
def natStr (n : Nat) : PyStr := (toString n).toList

/-- The Unicode decimal-digit blocks (`Numeric_Type=Decimal`, category
`Nd`): the characters accepted by Python's `str.isdecimal` and by `int`
inside a digit string.  Each entry is a block of consecutive code
points; a character's decimal value is its offset into the block modulo
ten (every block has length ten except the mathematical digits at
`1D7CE`–`1D7FF`, five contiguous blocks of ten). -/
def decimalRanges : List (Nat × Nat) := [
  (0x30, 0x39), (0x660, 0x669), (0x6F0, 0x6F9), (0x7C0, 0x7C9),
  (0x966, 0x96F), (0x9E6, 0x9EF), (0xA66, 0xA6F), (0xAE6, 0xAEF),
  (0xB66, 0xB6F), (0xBE6, 0xBEF), (0xC66, 0xC6F), (0xCE6, 0xCEF),
  (0xD66, 0xD6F), (0xDE6, 0xDEF), (0xE50, 0xE59), (0xED0, 0xED9),
  (0xF20, 0xF29), (0x1040, 0x1049), (0x1090, 0x1099), (0x17E0, 0x17E9),
  (0x1810, 0x1819), (0x1946, 0x194F), (0x19D0, 0x19D9), (0x1A80, 0x1A89),
  (0x1A90, 0x1A99), (0x1B50, 0x1B59), (0x1BB0, 0x1BB9), (0x1C40, 0x1C49),
  (0x1C50, 0x1C59), (0xA620, 0xA629), (0xA8D0, 0xA8D9), (0xA900, 0xA909),
  (0xA9D0, 0xA9D9), (0xA9F0, 0xA9F9), (0xAA50, 0xAA59), (0xABF0, 0xABF9),
  (0xFF10, 0xFF19), (0x104A0, 0x104A9), (0x10D30, 0x10D39),
  (0x11066, 0x1106F), (0x110F0, 0x110F9), (0x11136, 0x1113F),
  (0x111D0, 0x111D9), (0x112F0, 0x112F9), (0x11450, 0x11459),
  (0x114D0, 0x114D9), (0x11650, 0x11659), (0x116C0, 0x116C9),
  (0x11730, 0x11739), (0x118E0, 0x118E9), (0x11950, 0x11959),
  (0x11C50, 0x11C59), (0x11D50, 0x11D59), (0x11DA0, 0x11DA9),
  (0x16A60, 0x16A69), (0x16AC0, 0x16AC9), (0x16B50, 0x16B59),
  (0x1D7CE, 0x1D7FF), (0x1E140, 0x1E149), (0x1E2F0, 0x1E2F9),
  (0x1E950, 0x1E959), (0x1FBF0, 0x1FBF9)]

/-- Python `str.isdecimal` for one character. -/
def isdecimalCh (c : Char) : Bool :=
  decimalRanges.any (fun r => r.1 ≤ c.toNat ∧ c.toNat ≤ r.2)

/-- The Unicode decimal value of a decimal-digit character (`0` outside
the table, where `int` raises instead — see `intDigitRun`). -/
def decimalValCh (c : Char) : Nat :=
  match decimalRanges.find? (fun r => r.1 ≤ c.toNat ∧ c.toNat ≤ r.2) with
  | some r => (c.toNat - r.1) % 10
  | none => 0

/-- The Unicode digit characters without a decimal value
(`Numeric_Type=Digit`: superscripts, subscripts, circled digits, …):
accepted by `str.isdigit` but rejected by `int`. -/
def digitOnlyRanges : List (Nat × Nat) := [
  (0xB2, 0xB3), (0xB9, 0xB9), (0x1369, 0x1371), (0x19DA, 0x19DA),
  (0x2070, 0x2070), (0x2074, 0x2079), (0x2080, 0x2089), (0x2460, 0x2468),
  (0x2474, 0x247C), (0x2488, 0x2490), (0x24EA, 0x24EA), (0x24F5, 0x24FD),
  (0x24FF, 0x24FF), (0x2776, 0x277E), (0x2780, 0x2788), (0x278A, 0x2792),
  (0x10A40, 0x10A43), (0x10E60, 0x10E68), (0x11052, 0x1105A),
  (0x1F100, 0x1F10A)]

/-- Python `str.isdigit` for one character: a decimal digit or a
digit-only character. -/
def isdigitCh (c : Char) : Bool :=
  isdecimalCh c || digitOnlyRanges.any (fun r => r.1 ≤ c.toNat ∧ c.toNat ≤ r.2)

/-- Python `int(s)` on a nonempty run of `str.isdigit` characters: the
decimal value, or the `ValueError` raise when some character has no
decimal value (such as a superscript digit). -/
def intDigitRun (s : PyStr) : Except Unit Nat :=
  if s.all isdecimalCh then
    .ok (s.foldl (fun n c => n * 10 + decimalValCh c) 0)
  else .error ()

end Py

namespace Dates

open Py

/-- Module constant `min_year` of `src/musiclinter/dates.py`. -/
def min_year : Nat := 1960

/-- Module constant `max_year = datetime.now().year + 1`; the current year
is read from the clock at import time and is therefore a parameter of the
model. -/
def max_year (currentYear : Nat) : Nat := currentYear + 1

/-- Worker of `digit_substr`, with the digit test abstracted: the Python
generator walks the indices and tracks the start of the current run
(`begin`/`i`); the direct list translation tracks the pending run in an
accumulator (reversed).  `digit_substr` instantiates Python's
`str.isdigit`; the spec-side ASCII reading instantiates `Char.isDigit`. -/
def digitGo (p : Char → Bool) (acc : PyStr) : PyStr → List PyStr
  | [] => if acc.isEmpty then [] else [acc.reverse]
  | c :: cs =>
    if p c then digitGo p (c :: acc) cs
    else (if acc.isEmpty then [] else [acc.reverse]) ++ digitGo p [] cs

/-- `digit_substr` of `src/musiclinter/dates.py`: yields the maximal runs
of consecutive `str.isdigit` characters of `s`, in order. -/
def digit_substr (s : PyStr) : List PyStr := digitGo Py.isdigitCh [] s

/-- `is_year` of `src/musiclinter/dates.py`. -/
def is_year (currentYear : Nat) (y : Nat) : Bool :=
  min_year ≤ y ∧ y ≤ max_year currentYear

/-- Python `list(map(int, runs))`: `list` forces `int` on every run, in
order; a run without a decimal value raises `ValueError` (the error
case). -/
def intsOfRuns : List PyStr → Except Unit (List Nat)
  | [] => .ok []
  | r :: rs =>
    match Py.intDigitRun r with
    | .error e => .error e
    | .ok n =>
      match intsOfRuns rs with
      | .error e => .error e
      | .ok ns => .ok (n :: ns)

/-- `string_to_years` of `src/musiclinter/dates.py`:
`list(filter(is_year, map(int, filter(len == 4, digit_substr(s)))))` —
the `list` call forces every mapped `int`, so a length-4 digit run
containing a digit-only character raises `ValueError`. -/
def string_to_years (currentYear : Nat) (s : PyStr) : Except Unit (List Nat) :=
  match intsOfRuns ((digit_substr s).filter (fun r => r.length = 4)) with
  | .error e => .error e
  | .ok ns => .ok (ns.filter (is_year currentYear))

/-- `guess_year` of `src/musiclinter/dates.py` (the `ValueError` of
`string_to_years` propagates). -/
def guess_year (currentYear : Nat) (name : PyStr) : Except Unit (Option Nat) :=
  match string_to_years currentYear name with
  | .error e => .error e
  | .ok [y] => .ok (some y)
  | .ok _ => .ok none

/-- `year_string` of `src/musiclinter/dates.py` (with default `""`);
Python's `if n:` also treats the year `0` as falsy, and the `ValueError`
of `guess_year` propagates. -/
def year_string (currentYear : Nat) (name : PyStr) : Except Unit PyStr :=
  match guess_year currentYear name with
  | .error e => .error e
  | .ok (some n) => .ok (if n = 0 then [] else natStr n)
  | .ok none => .ok []

/-- Modelled from the spec: `inferYear` of §4.5, stated with the spec's own
vocabulary — split into maximal digit runs (`digitRuns`), keep the runs of
length exactly 4 whose value lies in `[1960, currentYear + 1]`, and return
the sole survivor.  The spec's "digit characters" are read as the ASCII
decimal digits of its examples, and its `inferYear` is total as the spec
asserts; the code agrees with it on ASCII input but diverges beyond (see
the correction of the year-inference claim).  Used as the specification
side of the refinement claim about `guess_year`. -/
def digitRuns (s : PyStr) : List PyStr :=
  match s with
  | [] => []
  | c :: cs =>
    if c.isDigit then
      (c :: cs.takeWhile Char.isDigit) :: digitRuns (cs.dropWhile Char.isDigit)
    else digitRuns cs
termination_by s.length
decreasing_by
  · have h := (List.dropWhile_sublist (l := cs) (p := Char.isDigit)).length_le
    simp only [List.length_cons]
    omega
  · simp

/-- Modelled from the spec: the candidate years of §4.5. -/
def specCandidates (currentYear : Nat) (s : PyStr) : List Nat :=
  (((digitRuns s).filter (fun r => r.length = 4)).map digitsToNat).filter
    (fun y => 1960 ≤ y ∧ y ≤ currentYear + 1)

/-- Modelled from the spec: `inferYear(text)` of §4.5. -/
def inferYearSpec (currentYear : Nat) (s : PyStr) : Option Nat :=
  match specCandidates currentYear s with
  | [y] => some y
  | _ => none

end Dates

namespace Dir

open Py

/-- Extension table `LOSSLESS` of `src/musiclinter/directory.py`. -/
def LOSSLESS : List PyStr := ["alac", "ape", "flac", "wav", "wv"].map String.toList

/-- Extension table `COMPRESSED` of `src/musiclinter/directory.py`. -/
def COMPRESSED : List PyStr := ["aac", "m4a", "mp3", "ogg", "opus", "wma"].map String.toList

/-- Extension table `IMAGES` of `src/musiclinter/directory.py`. -/
def IMAGES : List PyStr := ["bmp", "gif", "jpeg", "jpg", "png", "tiff"].map String.toList

/-- Extension table `VIDEOS` of `src/musiclinter/directory.py`. -/
def VIDEOS : List PyStr :=
  ["avi", "asf", "flv", "m1v", "m2v", "m4v", "mkv", "mov", "mp4", "mpeg",
    "mpg", "ts", "vob", "webm", "wmv"].map String.toList

/-- Extension table `PLAYLIST` of `src/musiclinter/directory.py`. -/
def PLAYLIST : List PyStr := ["m3u", "m3u8"].map String.toList

/-- Extension table `IGNORE` of `src/musiclinter/directory.py` (note that
it contains `ifo` and `bup`). -/
def IGNORE : List PyStr := ["", "ifo", "bup", "log", "txt"].map String.toList

/-- Modelled from the spec: `kstools.files.lowerext` is not part of this
repository; per §4.1 the lookup key is the lower-cased extension, and the
in-repository `fileextlow` of `src/musiclinter.py` implements exactly
`os.path.splitext(name)[1].lower()[1:]`. -/
def lowerext (name : PyStr) : PyStr :=
  let e := lowerL (splitextL name).2
  if e.isEmpty then [] else e.drop 1

/-- File categories of the classifier (§4.1). -/
inductive Category where
  | lossless
  | compressed
  | image
  | video
  | playlist
  | index
  | ignored
  | unknown (ext : PyStr)
deriving DecidableEq, Repr

/-- The extension dispatch of `_build_analyzer`/`analyze_file` in
`src/musiclinter/directory.py`, expressed as a category-valued table.  The
analyzer dictionary is keyed by disjoint extension tuples, so the
membership chain is equivalent to the dictionary lookup. -/
def classifyExt (ext : PyStr) : Category :=
  if ext ∈ IGNORE then .ignored
  else if ext ∈ LOSSLESS then .lossless
  else if ext ∈ COMPRESSED then .compressed
  else if ext ∈ IMAGES then .image
  else if ext ∈ VIDEOS then .video
  else if ext ∈ PLAYLIST then .playlist
  else if ext = String.toList "cue" then .index
  else .unknown ext

/-- `classify(fileName)` of §4.1 as implemented by `analyze_file`:
dispatch on the lower-cased extension. -/
def classify (name : PyStr) : Category := classifyExt (lowerext name)

/-- Modelled from the spec: the original §4.1 default table (`ifo` and
`bup` listed under Video; Ignored exactly `{"", log, txt}`), keyed by the
same lower-cased extension, in the spec's listing order. -/
def specTableOrig (ext : PyStr) : Category :=
  if ext ∈ LOSSLESS then .lossless
  else if ext ∈ COMPRESSED then .compressed
  else if ext ∈ IMAGES then .image
  else if ext ∈ (["asf", "avi", "bup", "flv", "ifo", "m1v", "m2v", "m4v", "mkv",
      "mov", "mp4", "mpeg", "mpg", "ts", "vob", "webm", "wmv"].map String.toList) then .video
  else if ext ∈ PLAYLIST then .playlist
  else if ext = String.toList "cue" then .index
  else if ext ∈ (["", "log", "txt"].map String.toList) then .ignored
  else .unknown ext

/-- Modelled from the spec: `classify` according to the spec's table as
written. -/
def specClassifyOrig (name : PyStr) : Category := specTableOrig (lowerext name)

/-- Modelled from the spec: the §4.1 table amended to match the source:
`ifo` and `bup` move from Video to Ignored. -/
def specTableAmended (ext : PyStr) : Category :=
  if ext ∈ LOSSLESS then .lossless
  else if ext ∈ COMPRESSED then .compressed
  else if ext ∈ IMAGES then .image
  else if ext ∈ (["asf", "avi", "flv", "m1v", "m2v", "m4v", "mkv",
      "mov", "mp4", "mpeg", "mpg", "ts", "vob", "webm", "wmv"].map String.toList) then .video
  else if ext ∈ PLAYLIST then .playlist
  else if ext = String.toList "cue" then .index
  else if ext ∈ (["", "ifo", "bup", "log", "txt"].map String.toList) then .ignored
  else .unknown ext

/-- Modelled from the spec: the amended `classify`. -/
def specClassifyAmended (name : PyStr) : Category := specTableAmended (lowerext name)

/-- The state of one `Directory` instance of
`src/musiclinter/directory.py` after `analyze` (children, subdirs and the
linter list are handled by the walk model in `Pkg`). -/
structure Directory where
  path : PyStr
  lossless : List PyStr
  compressed : List PyStr
  cue : List PyStr
  images : List PyStr
  videos : List PyStr
  playlist : List PyStr
  ignored : Nat
  unknown : List (PyStr × Nat)
deriving DecidableEq, Repr

/-- `Directory.__init__` field initialisation. -/
def emptyDir (path : PyStr) : Directory :=
  ⟨path, [], [], [], [], [], [], 0, []⟩

/-- `count(d, v)` of `src/musiclinter/directory.py`: increment the counter
of `v` in the dictionary (insertion-ordered association list). -/
def count : List (PyStr × Nat) → PyStr → List (PyStr × Nat)
  | [], v => [(v, 1)]
  | (k, n) :: rest, v =>
    if k = v then (k, n + 1) :: rest else (k, n) :: count rest v

/-- `Directory.analyze_file`: dispatch one file name into the matching
category list / counter. -/
def analyze_file (d : Directory) (name : PyStr) : Directory :=
  match classify name with
  | .ignored => { d with ignored := d.ignored + 1 }
  | .lossless => { d with lossless := d.lossless ++ [name] }
  | .compressed => { d with compressed := d.compressed ++ [name] }
  | .image => { d with images := d.images ++ [name] }
  | .video => { d with videos := d.videos ++ [name] }
  | .playlist => { d with playlist := d.playlist ++ [name] }
  | .index => { d with cue := d.cue ++ [name] }
  | .unknown ext => { d with unknown := count d.unknown ext }

/-- The file-classification loop of `Directory.analyze` over the directory
listing `files`. -/
def analyze (path : PyStr) (files : List PyStr) : Directory :=
  files.foldl analyze_file (emptyDir path)

end Dir

namespace Covers

open Py

/-- `CoverLinter.NAMES` of `src/musiclinter/covers.py`. -/
def NAMES : List PyStr := ["cover", "folder", "front"].map String.toList

/-- Modelled from the spec: `kstools.files.lowername` is not part of this
repository; per §4.3 it is the lower-cased, extension-stripped stem, and
the in-repository `filenamelow` of `src/musiclinter.py` implements exactly
`os.path.splitext(name)[0].lower()`. -/
def lowername (name : PyStr) : PyStr := lowerL (splitextL name).1

/-- `CoverLinter.valid_names`: the image stems that are valid cover names.
The Python set intersection is modelled as a filtered list: only its
emptiness is ever observed. -/
def valid_names (images : List PyStr) : List PyStr :=
  (images.map lowername).filter (· ∈ NAMES)

/-- Accumulator state of one `CoverLinter` instance (`__init__`). -/
structure CoverState where
  no_cover : Bool
  nr_wrong_name : Nat
  actions : List Unit
deriving DecidableEq, Repr

/-- `CoverLinter.__init__`. -/
def coverInit : CoverState := ⟨false, 0, []⟩

/-- `CoverLinter.lint` of `src/musiclinter/covers.py`: a read-only check
(the `actions` field records filesystem mutations; none are ever
performed). -/
def cover_lint (d : Dir.Directory) : CoverState :=
  if d.lossless.isEmpty ∧ d.compressed.isEmpty then coverInit
  else if d.images.isEmpty then { coverInit with no_cover := true }
  else if (valid_names d.images).isEmpty then
    { coverInit with nr_wrong_name := d.images.length }
  else coverInit

end Covers

namespace Script

open Py

/-- `CUE_ENCODING` of `src/musiclinter.py`: the encodings accepted as
clean. -/
def CUE_ENCODING : List PyStr := ["ascii", "UTF-8-SIG"].map String.toList

/-- `ENCODING_MAP` of `src/musiclinter.py`: remap of wrongly guessed
encodings (used only to pick the decode codec, which the model treats as
part of the external decoding interface). -/
def ENCODING_MAP : List (PyStr × PyStr) :=
  [(String.toList "MacCyrillic", String.toList "windows-1251")]

/-- `fileextlow` of `src/musiclinter.py`. -/
def fileextlow (name : PyStr) : PyStr :=
  let e := lowerL (splitextL name).2
  if e.isEmpty then [] else e.drop 1

/-- `filenamelow` of `src/musiclinter.py`. -/
def filenamelow (name : PyStr) : PyStr := lowerL (splitextL name).1

/-- `CueFix` of `src/musiclinter.py` (an `IntEnum`). -/
inductive CueFix where
  | ignoreCue
  | checkCue
  | overwriteCue
  | newCue
deriving DecidableEq, Repr

/-- Integer value of the `CueFix` enum members. -/
def CueFix.toNat : CueFix → Nat
  | .ignoreCue => 0
  | .checkCue => 1
  | .overwriteCue => 2
  | .newCue => 3

/-- Non-overlapping 4-digit matches of the regex `\d\d\d\d` (`re.findall`,
scanning left to right), as used by `string_to_years` of
`src/musiclinter.py`; `\d` in a Python `str` pattern matches exactly the
Unicode decimal digits. -/
def findall4d : PyStr → List PyStr
  | c1 :: c2 :: c3 :: c4 :: rest =>
    if isdecimalCh c1 ∧ isdecimalCh c2 ∧ isdecimalCh c3 ∧ isdecimalCh c4 then
      [c1, c2, c3, c4] :: findall4d rest
    else findall4d (c2 :: c3 :: c4 :: rest)
  | _ => []

/-- `string_to_years` of `src/musiclinter.py` (regex based — unlike its
namesake in `dates.py`): every matched character is a decimal digit, so
the mapped `int` cannot raise here; its value folds the Unicode decimal
digit values. -/
def string_to_years (currentYear : Nat) (s : PyStr) : List Nat :=
  ((findall4d s).map (fun r => r.foldl (fun n c => n * 10 + decimalValCh c) 0)).filter
    (fun y => 1960 ≤ y ∧ y ≤ currentYear + 1)

/-- `guess_year` of `src/musiclinter.py`: takes a path, keeps its
basename. -/
def guess_year (currentYear : Nat) (path : PyStr) : Option Nat :=
  match string_to_years currentYear (basenameL path) with
  | [y] => some y
  | _ => none

/-- Filesystem actions performed by the repairer.  A written payload is
the text content; `process_cue_data` always encodes it as UTF-8 with a
byte-order mark. -/
inductive FsAction where
  | rename (src dst : PyStr)
  | write (path : PyStr) (content : PyStr)
deriving DecidableEq, Repr

/-- Early-exit conditions of the line scan of `process_cue_data`. -/
inductive ScanErr where
  | multiple
  | unparseable
deriving DecidableEq, Repr

/-- Does a (stripped) line begin with the file-declaration keyword? -/
def isFileDecl (l : PyStr) : Bool := (String.toList "FILE").isPrefixOf l

/-- Does a (stripped) line begin with the date remark keyword? -/
def isDateDecl (l : PyStr) : Bool := (String.toList "REM DATE ").isPrefixOf l

/-- The date token captured from a stripped `REM DATE` line:
`line.split(' ')[2]`. -/
def dateToken (l : PyStr) : PyStr := (splitCharL ' ' l).getD 2 []

/-- One step of the date tracking of the scan loop. -/
def dateStep (d : Option PyStr) (l : PyStr) : Option PyStr :=
  let t := stripL l
  if isFileDecl t then d
  else if isDateDecl t then some (dateToken t)
  else d

/-- The date value tracked by the scan loop over a list of lines. -/
def foldDate (ls : List PyStr) (d : Option PyStr) : Option PyStr :=
  ls.foldl dateStep d

/-- The line scan of `process_cue_data` (`src/musiclinter.py` lines
361–381): track the declared file name and the date token, aborting on a
second `FILE` line (Python: `if filename:`, so an empty first name does
not arm the abort) or on a `FILE` line that does not split on `"` into
exactly three parts. -/
def scanLines (fn d : Option PyStr) : List PyStr → Except ScanErr (Option PyStr × Option PyStr)
  | [] => .ok (fn, d)
  | l :: rest =>
    let t := stripL l
    if isFileDecl t then
      if strTruthy fn then .error .multiple
      else
        match splitCharL '"' t with
        | [_, v, _] => scanLines (some v) d rest
        | _ => .error .unparseable
    else if isDateDecl t then scanLines fn (some (dateToken t)) rest
    else scanLines fn d rest

/-- The stale-extension candidate search (`src/musiclinter.py` lines
393–395): `basename = os.path.splitext(filename)` yields a *pair*, and
`f.startswith(basename)` with a tuple argument succeeds if `f` starts
with the stem or with the dotted extension. -/
def findTupleMatch (files : List PyStr) (filename : PyStr) : Option PyStr :=
  let b := splitextL filename
  files.find? (fun f => b.1.isPrefixOf f || b.2.isPrefixOf f)

/-- Exit classification of `process_cue_data`.  The early `return False`
paths are unrepairable (`valid=false`, `canRepair=false`); `done` carries
the final `ok`/`can_fix`/`suffix` values of the fall-through path. -/
inductive CueOutcome where
  | multipleFiles (nrFilesInDir : Nat)
  | unparseable
  | missingFile
  | nonexistent (name : PyStr)
  | done (ok : Bool) (canFix : Bool) (suffix : PyStr)
deriving DecidableEq, Repr

/-- Result of the analysis part of `process_cue_data` (everything before
the repair application). -/
structure CueAnalysis where
  outcome : CueOutcome
  content : PyStr
  dateOk : Bool
  guessed : Option Nat
deriving DecidableEq, Repr

/-- Full result of `process_cue_data`: the Python return value, the
filesystem actions performed, and the final in-memory content. -/
structure CueRet where
  outcome : CueOutcome
  content : PyStr
  actions : List FsAction
  ret : Bool
deriving DecidableEq, Repr

/-- The analysis part of `process_cue_data` (`src/musiclinter.py` lines
342–415): encoding check, line scan, reference validation with
stale-extension recovery, date check.  `detected` is the name returned by
the external `chardet` detector; `content` is the decoded text. -/
def analyze_cue (cuePath : PyStr) (files : List PyStr) (detected : PyStr)
    (content : PyStr) (currentYear : Nat) : CueAnalysis :=
  let encOk := detected ∈ CUE_ENCODING
  let ok0 : Bool := encOk
  let canfix0 : Bool := ¬ encOk
  let suffix0 : PyStr := if encOk then String.toList "fixed" else String.toList "utf8"
  match scanLines none none (splitlinesL content) with
  | .error .multiple => ⟨.multipleFiles files.length, content, true, none⟩
  | .error .unparseable => ⟨.unparseable, content, true, none⟩
  | .ok (fn?, d?) =>
    if strTruthy fn? then
      let fn := fn?.getD []
      if fn ∈ files then
        let dateOk := strTruthy d?
        let guessed := if dateOk then none else guess_year currentYear (dirnameL cuePath)
        ⟨.done (ok0 && dateOk) canfix0 suffix0, content, dateOk, guessed⟩
      else
        match findTupleMatch files fn with
        | some f =>
          let content1 := replaceAllL fn f content
          let dateOk := strTruthy d?
          let guessed := if dateOk then none else guess_year currentYear (dirnameL cuePath)
          ⟨.done false true (fileextlow f), content1, dateOk, guessed⟩
        | none => ⟨.nonexistent fn, content, true, none⟩
    else ⟨.missingFile, content, true, none⟩

/-- The repair application of `process_cue_data` (`src/musiclinter.py`
lines 417–434): applied only when invalid, fixable and `fix_cue >
CHECK`.  In overwrite mode the original is renamed to `<path>.bak` and
the corrected content is written back to the original path; otherwise the
content is written to `'.'.join([cue[:-4], suffix, 'cue'])`.  A missing
date with an inferred year is prepended as a `REM DATE` line first. -/
def finalizeCue (cuePath : PyStr) (fixCue : CueFix) (a : CueAnalysis) : CueRet :=
  match a.outcome with
  | .done ok canfix suffix =>
    if ¬ ok ∧ canfix ∧ 2 ≤ fixCue.toNat then
      let acts0 : List FsAction :=
        if fixCue = .overwriteCue then
          [.rename cuePath (cuePath ++ String.toList ".bak")]
        else []
      let newName : PyStr :=
        if fixCue = .overwriteCue then cuePath
        else List.intercalate ['.']
          [cuePath.take (cuePath.length - 4), suffix, String.toList "cue"]
      let content2 : PyStr :=
        if ¬ a.dateOk ∧ a.guessed.isSome then
          String.toList "REM DATE " ++ natStr (a.guessed.getD 0) ++ '\n' :: a.content
        else a.content
      ⟨a.outcome, content2, acts0 ++ [.write newName content2], ok⟩
    else ⟨a.outcome, a.content, [], ok⟩
  | o => ⟨o, a.content, [], false⟩

/-- `process_cue_data` of `src/musiclinter.py`: analysis followed by
repair application. -/
def process_cue_data (cuePath : PyStr) (files : List PyStr) (fixCue : CueFix)
    (detected : PyStr) (content : PyStr) (currentYear : Nat) : CueRet :=
  finalizeCue cuePath fixCue (analyze_cue cuePath files detected content currentYear)

/-- A file-declaration line `FILE "<name>" <type>`. -/
def mkFileLine (fname ty : PyStr) : PyStr :=
  String.toList "FILE \"" ++ fname ++ '"' :: ' ' :: ty

end Script

namespace Pkg

open Py

/-- Modelled from the spec: a track record of the parsed companion index
(§3, Index Document); the `kstools.cue.Cue` parser is not part of this
repository, so its output is an input of the model.  `cue.py` reads the
fields `index` and `file` of each track. -/
structure Track where
  index : Nat
  file : Option PyStr
deriving DecidableEq, Repr

/-- Modelled from the spec: the parsed companion index produced by
`kstools.cue.Cue` (§3, Index Document); `cue.py` reads and writes the
fields `nr_files`, `tracks`, `valid`, `can_fix` and `date`. -/
structure CueData where
  nr_files : Nat
  tracks : List Track
  valid : Bool
  can_fix : Bool
  date : Option PyStr
deriving DecidableEq, Repr

/-- Class-level options of `CueLinter` (`delete`, `fix`, `overwrite`). -/
structure LintFlags where
  delete : Bool
  fix : Bool
  overwrite : Bool
deriving DecidableEq, Repr

/-- Accumulator state of one `CueLinter` instance
(`CueLinter.__init__`). -/
structure CueLinterState where
  nr_invalid : Nat
  nr_deleted : Nat
  nr_fixed : Nat
deriving DecidableEq, Repr

/-- `CueLinter.__init__`: all counters start at zero. -/
def linterInit : CueLinterState := ⟨0, 0, 0⟩

/-- `PureWindowsPath(p).stem`: the final path component (separators `\`
and `/`) without its last suffix. -/
def pwp_stem (p : PyStr) : PyStr :=
  let n := match rfindIdx (fun c => c = '/' ∨ c = '\\') p with
    | none => p
    | some j => p.drop (j + 1)
  match rfindIdx (· = '.') n with
  | some i => if 0 < i ∧ i < n.length - 1 then n.take i else n
  | none => n

/-- `pathlib.PurePath.with_suffix`: replace the suffix of the final
component (if it has one) by `suf`. -/
def with_suffixL (p : PyStr) (suf : PyStr) : PyStr :=
  let n := basenameL p
  let base := match rfindIdx (· = '.') n with
    | some i => if 0 < i ∧ i < n.length - 1 then n.take i else n
    | none => n
  p.take (p.length - n.length) ++ base ++ suf

/-- Modelled from the spec: `Directory.fullpath` is called by the linters
but absent from `src/musiclinter/directory.py`; per the filesystem
interface of §6 it joins the directory path and a file name. -/
def fullpath (dir name : PyStr) : PyStr := dir ++ '/' :: name

/-- One iteration of the track loop of `CueLinter.process_cue`
(`src/musiclinter/cue.py` lines 64–95): skip falsy and resolvable
references, attempt stem recovery against `files`, otherwise mark the
document unrepairable.  Returns the (possibly rewritten) track and the
updated `valid`/`can_fix` pair. -/
def lint_track (files : List PyStr) (t : Track) (v cf : Bool) : Track × Bool × Bool :=
  match t.file with
  | none => (t, v, cf)
  | some fl =>
    if fl.isEmpty then (t, v, cf)
    else if fl ∈ files then (t, v, cf)
    else
      match files.find? (fun f => (pwp_stem fl).isPrefixOf f) with
      | some f => ({ t with file := some f }, false, true)
      | none => (t, false, false)

/-- The full track loop of `CueLinter.process_cue`. -/
def lint_tracks (files : List PyStr) : List Track → Bool → Bool → List Track × Bool × Bool
  | [], v, cf => ([], v, cf)
  | t :: ts, v, cf =>
    let r := lint_track files t v cf
    let rest := lint_tracks files ts r.2.1 r.2.2
    (r.1 :: rest.1, rest.2)

/-- Filesystem actions of the package cue linter.  A written payload is
the final cue state (`cue.utf8()` serialisation is external). -/
inductive PkgAction where
  | unlink (path : PyStr)
  | write (path : PyStr) (cue : CueData)
deriving DecidableEq, Repr

/-- Result of `CueLinter.process_cue`: the processed cue state, the
counter deltas, the filesystem actions, and whether the call raised.
(The overwrite branch evaluates `path + ".bak"` on a `pathlib.Path`,
which raises `TypeError` before any rename happens.) -/
structure PkgCueRet where
  cue : CueData
  d_invalid : Nat
  d_fixed : Nat
  actions : List PkgAction
  err : Bool
deriving DecidableEq, Repr

/-- The date guess of `process_cue` (`year_string` of `dates.py` with
default `""`), in its ASCII reading: digit runs of `Char.isDigit`, on
which `int` is total.  The package claims do not constrain the guessed
value, so the `ValueError` path of the full Unicode semantics — proved
of `Dates.year_string` and refuting the year-inference claim — is
outside their statements and not modelled on this side. -/
def year_string_ascii (currentYear : Nat) (name : PyStr) : PyStr :=
  match (((Dates.digitGo Char.isDigit [] name).filter
      (fun r => r.length = 4)).map digitsToNat).filter
      (Dates.is_year currentYear) with
  | [y] => if y = 0 then [] else natStr y
  | _ => []

/-- `CueLinter.process_cue` of `src/musiclinter/cue.py` (lines 53–121),
given the parsed cue `cue0` of the file at `path` and the directory's
lossless list `files`. -/
def process_cue (flags : LintFlags) (currentYear : Nat) (path : PyStr)
    (files : List PyStr) (cue0 : CueData) : PkgCueRet :=
  let r := lint_tracks files cue0.tracks cue0.valid cue0.can_fix
  let cue1 : CueData := { cue0 with tracks := r.1, valid := r.2.1, can_fix := r.2.2 }
  if cue1.valid then ⟨cue1, 0, 0, [], false⟩
  else if cue1.can_fix ∧ flags.fix then
    if flags.overwrite then ⟨cue1, 1, 0, [], true⟩
    else
      let newName := with_suffixL path (String.toList ".lint.cue")
      let cue2 :=
        if strTruthy cue1.date then cue1
        else
          let y := year_string_ascii currentYear (basenameL (dirnameL path))
          if y.isEmpty then cue1 else { cue1 with date := some y }
      ⟨cue2, 1, 1, [.write newName cue2], false⟩
  else ⟨cue1, 1, 0, [], false⟩

/-- Result of `CueLinter.lint` on one directory. -/
structure LintOut where
  state : CueLinterState
  actions : List PkgAction
  err : Bool
deriving DecidableEq, Repr

/-- The `no_music` test of `CueLinter.lint`:
`not (d.lossless or d.compressed or d.unknown)`. -/
def no_music (d : Dir.Directory) : Bool :=
  d.lossless.isEmpty ∧ d.compressed.isEmpty ∧ d.unknown.isEmpty

/-- The loop body of `CueLinter.lint` folded over `d.cue`; `parse` maps a
full path to the parsed cue of the file read there (reading and parsing
are external).  A raised exception stops the loop. -/
def lint_step (flags : LintFlags) (currentYear : Nat) (parse : PyStr → CueData)
    (d : Dir.Directory) (acc : LintOut) (cue : PyStr) : LintOut :=
  if acc.err then acc
  else if no_music d then
    if flags.delete then
      { acc with
        state := { acc.state with nr_deleted := acc.state.nr_deleted + 1 },
        actions := acc.actions ++ [.unlink (fullpath d.path cue)] }
    else acc
  else
    let r := process_cue flags currentYear (fullpath d.path cue) d.lossless
      (parse (fullpath d.path cue))
    { state := { acc.state with
        nr_invalid := acc.state.nr_invalid + r.d_invalid,
        nr_fixed := acc.state.nr_fixed + r.d_fixed },
      actions := acc.actions ++ r.actions,
      err := r.err }

/-- `CueLinter.lint` of `src/musiclinter/cue.py` on a freshly constructed
linter instance. -/
def lint (flags : LintFlags) (currentYear : Nat) (parse : PyStr → CueData)
    (d : Dir.Directory) : LintOut :=
  d.cue.foldl (lint_step flags currentYear parse d) ⟨linterInit, [], false⟩

end Pkg

namespace Dir

/-- Is a category the Unknown case? -/
def isUnknownCat : Category → Bool
  | .unknown _ => true
  | _ => false

/-- The accumulated effect of `analyze_file` on the `unknown` dictionary
over a list of files. -/
def unkFold (u : List (Py.PyStr × Nat)) (files : List Py.PyStr) : List (Py.PyStr × Nat) :=
  files.foldl (fun u f =>
    match classify f with
    | .unknown e => count u e
    | _ => u) u

end Dir

namespace Pkg

/-- Fixture: a parse oracle whose every document is a clean single-track
index referencing `b.mp3`. -/
def parseMp3Track : Py.PyStr → CueData :=
  fun _ => ⟨1, [⟨1, some (String.toList "b.mp3")⟩], true, false, none⟩

end Pkg

-- ### THEOREMS ###

open Py

/-- Key pointwise fact for C6: the code's extension dispatch agrees with
the spec's table once `ifo` and `bup` are moved from Video to Ignored. -/
theorem classify_table_agrees (e : PyStr) :
    Dir.classifyExt e = Dir.specTableAmended e := by
  by_cases h1 : e ∈ Dir.IGNORE
  · simp only [Dir.IGNORE, List.map_cons, List.map_nil, List.mem_cons,
      List.not_mem_nil, or_false] at h1
    rcases h1 with rfl | rfl | rfl | rfl | rfl <;> decide
  · by_cases h2 : e ∈ Dir.LOSSLESS
    · simp only [Dir.LOSSLESS, List.map_cons, List.map_nil, List.mem_cons,
        List.not_mem_nil, or_false] at h2
      rcases h2 with rfl | rfl | rfl | rfl | rfl <;> decide
    · by_cases h3 : e ∈ Dir.COMPRESSED
      · simp only [Dir.COMPRESSED, List.map_cons, List.map_nil, List.mem_cons,
          List.not_mem_nil, or_false] at h3
        rcases h3 with rfl | rfl | rfl | rfl | rfl | rfl <;> decide
      · by_cases h4 : e ∈ Dir.IMAGES
        · simp only [Dir.IMAGES, List.map_cons, List.map_nil, List.mem_cons,
            List.not_mem_nil, or_false] at h4
          rcases h4 with rfl | rfl | rfl | rfl | rfl | rfl <;> decide
        · by_cases h5 : e ∈ Dir.VIDEOS
          · simp only [Dir.VIDEOS, List.map_cons, List.map_nil, List.mem_cons,
              List.not_mem_nil, or_false] at h5
            rcases h5 with rfl | rfl | rfl | rfl | rfl | rfl | rfl | rfl | rfl
              | rfl | rfl | rfl | rfl | rfl | rfl <;> decide
          · by_cases h6 : e ∈ Dir.PLAYLIST
            · simp only [Dir.PLAYLIST, List.map_cons, List.map_nil, List.mem_cons,
                List.not_mem_nil, or_false] at h6
              rcases h6 with rfl | rfl <;> decide
            · by_cases h7 : e = String.toList "cue"
              · subst h7; decide
              · have h1a : e ∉ (["", "ifo", "bup", "log", "txt"].map String.toList) := by
                  simpa [Dir.IGNORE] using h1
                have h5a : e ∉ (["asf", "avi", "flv", "m1v", "m2v", "m4v", "mkv",
                    "mov", "mp4", "mpeg", "mpg", "ts", "vob", "webm",
                    "wmv"].map String.toList) := by
                  intro hm
                  simp only [List.map_cons, List.map_nil, List.mem_cons,
                    List.not_mem_nil, or_false] at hm
                  rcases hm with rfl | rfl | rfl | rfl | rfl | rfl | rfl | rfl
                    | rfl | rfl | rfl | rfl | rfl | rfl | rfl
                  all_goals exact h5 (by decide)
                simp only [Dir.classifyExt, Dir.specTableAmended,
                  if_neg h1, if_neg h2, if_neg h3, if_neg h4, if_neg h5,
                  if_neg h6, if_neg h7, if_neg h1a, if_neg h5a]

/-- C6 (counterexample): the claim's table places `ifo` (and `bup`) under
Video, but the source classifies `a.ifo` as Ignored and `b.bup` likewise,
so the code does not implement the spec's table as written. -/
theorem c6_ifo_bup_counterexample :
    Dir.classify (String.toList "a.ifo") = .ignored
      ∧ Dir.specClassifyOrig (String.toList "a.ifo") = .video
      ∧ Dir.classify (String.toList "b.bup") = .ignored
      ∧ Dir.specClassifyOrig (String.toList "b.bup") = .video
      ∧ Dir.Category.ignored ≠ Dir.Category.video := by
  refine ⟨by decide, by decide, by decide, by decide, by decide⟩

/-- C6 (amended): `classify` implements the spec's fixed lower-cased
extension table with `ifo` and `bup` classified as Ignored instead of
Video (so Ignored is exactly `{"", ifo, bup, log, txt}`); every extension
outside the table yields Unknown with the looked-up extension retained. -/
theorem c6_classifier_amended (name : PyStr) :
    Dir.classify name = Dir.specClassifyAmended name :=
  classify_table_agrees (Dir.lowerext name)

/-- Unfolding equation of `digitRuns` on the empty string. -/
theorem digitRuns_nil : Dates.digitRuns [] = [] := by
  rw [Dates.digitRuns.eq_def]

/-- Unfolding equation of `digitRuns` at a digit character. -/
theorem digitRuns_cons_digit (c : Char) (cs : PyStr) (hd : c.isDigit = true) :
    Dates.digitRuns (c :: cs)
      = (c :: cs.takeWhile Char.isDigit)
        :: Dates.digitRuns (cs.dropWhile Char.isDigit) := by
  rw [Dates.digitRuns.eq_def]
  simp [hd]

/-- Unfolding equation of `digitRuns` at a non-digit character. -/
theorem digitRuns_cons_nondigit (c : Char) (cs : PyStr) (hd : c.isDigit = false) :
    Dates.digitRuns (c :: cs) = Dates.digitRuns cs := by
  rw [Dates.digitRuns.eq_def]
  simp [hd]

/-- The accumulator worker of `digit_substr`, read with the ASCII digit
test, produces exactly the spec's maximal digit runs (joint statement
for empty and pending accumulators). -/
theorem digitGo_spec : ∀ (n : Nat) (cs : PyStr), cs.length ≤ n →
    (Dates.digitGo Char.isDigit [] cs = Dates.digitRuns cs
      ∧ ∀ acc : PyStr, ¬ acc.isEmpty →
        Dates.digitGo Char.isDigit acc cs
          = (acc.reverse ++ cs.takeWhile Char.isDigit)
            :: Dates.digitRuns (cs.dropWhile Char.isDigit)) := by
  intro n
  induction n with
  | zero =>
    intro cs hcs
    have : cs = [] := List.length_eq_zero.mp (Nat.le_zero.mp hcs)
    subst this
    refine ⟨by simp [Dates.digitGo, digitRuns_nil], ?_⟩
    intro acc hacc
    simp [Dates.digitGo, digitRuns_nil, hacc]
  | succ n ih =>
    intro cs hcs
    match cs with
    | [] =>
      refine ⟨by simp [Dates.digitGo, digitRuns_nil], ?_⟩
      intro acc hacc
      simp [Dates.digitGo, digitRuns_nil, hacc]
    | c :: cs2 =>
      have hlen : cs2.length ≤ n := by
        simp only [List.length_cons] at hcs
        omega
      constructor
      · by_cases hd : c.isDigit
        · have h2 := ((ih cs2 hlen).2) [c] (by simp)
          simp only [Dates.digitGo, hd, if_true]
          rw [h2, digitRuns_cons_digit c cs2 hd]
          simp
        · have h1 := (ih cs2 hlen).1
          simp only [Dates.digitGo, hd, if_false, List.isEmpty_nil]
          rw [digitRuns_cons_nondigit c cs2 (by simpa using hd)]
          simp [h1]
      · intro acc hacc
        by_cases hd : c.isDigit
        · have h2 := ((ih cs2 hlen).2) (c :: acc) (by simp)
          simp only [Dates.digitGo, hd, if_true]
          rw [h2]
          simp [hd, List.takeWhile_cons, List.dropWhile_cons]
        · have hd2 : c.isDigit = false := by simpa using hd
          have h1 := (ih cs2 hlen).1
          simp only [Dates.digitGo, hd2, List.takeWhile_cons,
            List.dropWhile_cons, Bool.false_eq_true, if_false]
          rw [digitRuns_cons_nondigit c cs2 hd2]
          simp [h1, hacc]

/-- The ASCII reading of the digit-run worker computes the spec's maximal
digit runs. -/
theorem digitGo_ascii_eq_digitRuns (s : PyStr) :
    Dates.digitGo Char.isDigit [] s = Dates.digitRuns s :=
  (digitGo_spec s.length s le_rfl).1

/-- The ASCII digit test, written on code points. -/
theorem char_isDigit_nat (c : Char) :
    c.isDigit = true ↔ 48 ≤ c.toNat ∧ c.toNat ≤ 57 := by
  simp only [Char.isDigit, Bool.and_eq_true, decide_eq_true_eq, ge_iff_le]
  exact Iff.rfl

/-- Below `U+0080`, Python's `str.isdigit` is the ASCII digit test: every
non-ASCII block of the digit tables starts above it. -/
theorem isdigitCh_ascii (c : Char) (h : c.toNat < 128) :
    Py.isdigitCh c = c.isDigit := by
  rw [Bool.eq_iff_iff, char_isDigit_nat]
  simp only [Py.isdigitCh, Py.isdecimalCh, Py.decimalRanges, Py.digitOnlyRanges,
    List.any_cons, List.any_nil, Bool.or_eq_true, decide_eq_true_eq, Bool.or_false]
  omega

/-- An ASCII digit is a decimal digit. -/
theorem isdecimalCh_of_isDigit (c : Char) (h : c.isDigit = true) :
    Py.isdecimalCh c = true := by
  rw [char_isDigit_nat] at h
  simp only [Py.isdecimalCh, Py.decimalRanges, List.any_cons, List.any_nil,
    Bool.or_eq_true, decide_eq_true_eq, Bool.or_false]
  omega

/-- On an ASCII digit the Unicode decimal value is the ASCII one. -/
theorem decimalValCh_ascii (c : Char) (h : c.isDigit = true) :
    Py.decimalValCh c = c.toNat - 48 := by
  rw [char_isDigit_nat] at h
  have hfind : Py.decimalRanges.find? (fun r => r.1 ≤ c.toNat ∧ c.toNat ≤ r.2)
      = some (0x30, 0x39) := by
    unfold Py.decimalRanges
    apply List.find?_cons_of_pos
    simp only [decide_eq_true_eq]
    exact h
  unfold Py.decimalValCh
  rw [hfind]
  show (c.toNat - 48) % 10 = c.toNat - 48
  omega

/-- The digit-run worker depends on the digit test only at the characters
of its input. -/
theorem digitGo_congr (p q : Char → Bool) :
    ∀ (s acc : PyStr), (∀ c ∈ s, p c = q c) →
      Dates.digitGo p acc s = Dates.digitGo q acc s := by
  intro s
  induction s with
  | nil => intro acc _; rfl
  | cons c cs ih =>
    intro acc h
    have hc := h c (List.mem_cons_self _ _)
    have hcs : ∀ x ∈ cs, p x = q x := fun x hx => h x (List.mem_cons_of_mem _ hx)
    simp only [Dates.digitGo, hc]
    by_cases hq : q c = true
    · rw [if_pos hq, if_pos hq, ih (c :: acc) hcs]
    · rw [if_neg hq, if_neg hq, ih [] hcs]

/-- Every character of a produced digit run satisfies the digit test
(given the pending accumulator does). -/
theorem digitGo_chars (p : Char → Bool) :
    ∀ (s acc : PyStr), (∀ c ∈ acc, p c = true) →
      ∀ r ∈ Dates.digitGo p acc s, ∀ c ∈ r, p c = true := by
  intro s
  induction s with
  | nil =>
    intro acc hacc r hr c hc
    simp only [Dates.digitGo] at hr
    by_cases he : acc.isEmpty = true
    · rw [if_pos he] at hr
      exact absurd hr (List.not_mem_nil r)
    · rw [if_neg he] at hr
      have hre : r = acc.reverse := List.mem_singleton.mp hr
      subst hre
      exact hacc c (List.mem_reverse.mp hc)
  | cons d cs ih =>
    intro acc hacc r hr c hc
    simp only [Dates.digitGo] at hr
    by_cases hd : p d = true
    · rw [if_pos hd] at hr
      refine ih (d :: acc) (fun x hx => ?_) r hr c hc
      rcases List.mem_cons.mp hx with h1 | h1
      · rw [h1]; exact hd
      · exact hacc x h1
    · rw [if_neg hd] at hr
      rcases List.mem_append.mp hr with h1 | h1
      · by_cases he : acc.isEmpty = true
        · rw [if_pos he] at h1
          exact absurd h1 (List.not_mem_nil r)
        · rw [if_neg he] at h1
          have hre : r = acc.reverse := List.mem_singleton.mp h1
          subst hre
          exact hacc c (List.mem_reverse.mp hc)
      · exact ih [] (by simp) r h1 c hc

/-- On an ASCII digit run the Unicode value fold is the ASCII one. -/
theorem fold_decimal_ascii (r : PyStr) (h : ∀ c ∈ r, c.isDigit = true) :
    ∀ a : Nat, r.foldl (fun n c => n * 10 + Py.decimalValCh c) a
      = r.foldl (fun n c => n * 10 + (c.toNat - 48)) a := by
  induction r with
  | nil => intro a; rfl
  | cons c cs ih =>
    intro a
    simp only [List.foldl_cons]
    rw [decimalValCh_ascii c (h c (List.mem_cons_self _ _)),
      ih (fun x hx => h x (List.mem_cons_of_mem _ hx))]

/-- `int` cannot raise on an ASCII digit run, and computes its ASCII
decimal value. -/
theorem intDigitRun_ascii (r : PyStr) (h : ∀ c ∈ r, c.isDigit = true) :
    Py.intDigitRun r = .ok (digitsToNat r) := by
  unfold Py.intDigitRun
  rw [if_pos (List.all_eq_true.mpr (fun c hc => isdecimalCh_of_isDigit c (h c hc)))]
  rw [fold_decimal_ascii r h 0]
  rfl

/-- Forcing `int` over ASCII digit runs yields their ASCII values. -/
theorem intsOfRuns_ascii (rs : List PyStr)
    (h : ∀ r ∈ rs, ∀ c ∈ r, c.isDigit = true) :
    Dates.intsOfRuns rs = .ok (rs.map digitsToNat) := by
  induction rs with
  | nil => rfl
  | cons r rs2 ih =>
    simp only [Dates.intsOfRuns]
    rw [intDigitRun_ascii r (h r (List.mem_cons_self _ _)),
      ih (fun x hx => h x (List.mem_cons_of_mem _ hx))]
    rfl

/-- Reduction of `guess_year` when the forced values of the four-digit
runs of the input are known. -/
theorem guess_year_reduce (cy : Nat) (s : PyStr) (l : List Nat)
    (h : Dates.intsOfRuns ((Dates.digit_substr s).filter (fun r => r.length = 4))
      = .ok l) :
    Dates.guess_year cy s
      = .ok (match l.filter (Dates.is_year cy) with
          | [y] => some y
          | _ => none) := by
  have hsty : Dates.string_to_years cy s = .ok (l.filter (Dates.is_year cy)) := by
    unfold Dates.string_to_years
    rw [h]
  unfold Dates.guess_year
  rw [hsty]
  cases hl : l.filter (Dates.is_year cy) with
  | nil => rfl
  | cons y ys =>
    cases ys with
    | nil => rfl
    | cons y2 ys2 => rfl

/-- C8 (amended): on ASCII input — where `str.isdigit` is the ASCII digit
test and `int` is total — `guess_year` is the spec-worded `inferYear`:
maximal digit runs, length exactly 4, value in `[1960, currentYear + 1]`,
sole survivor returned; the four example inputs behave as the spec
states.  (Beyond ASCII the claimed totality fails — see the
counterexample.) -/
theorem c8_infer_year (currentYear : Nat) (hy : 1994 ≤ currentYear) :
    (∀ s : PyStr, (∀ c ∈ s, c.toNat < 128) →
      Dates.guess_year currentYear s = .ok (Dates.inferYearSpec currentYear s))
    ∧ Dates.guess_year currentYear (String.toList "Album 1994 Remaster")
      = .ok (some 1994)
    ∧ Dates.guess_year currentYear (String.toList "Best of 1994 and 1995") = .ok none
    ∧ Dates.guess_year currentYear (String.toList "Greatest Hits") = .ok none
    ∧ Dates.guess_year currentYear (String.toList "Live 1899") = .ok none := by
  have hy94 : Dates.is_year currentYear 1994 = true := by
    simp only [Dates.is_year, Dates.min_year, Dates.max_year,
      decide_eq_true_eq]
    omega
  have hy95 : Dates.is_year currentYear 1995 = true := by
    simp only [Dates.is_year, Dates.min_year, Dates.max_year,
      decide_eq_true_eq]
    omega
  have hy99 : Dates.is_year currentYear 1899 = false := by
    simp only [Dates.is_year, Dates.min_year, Dates.max_year]
    apply decide_eq_false
    omega
  refine ⟨?_, ?_, ?_, ?_, ?_⟩
  · intro s hs
    have hps : ∀ c ∈ s, Py.isdigitCh c = c.isDigit :=
      fun c hc => isdigitCh_ascii c (hs c hc)
    have hds : Dates.digit_substr s = Dates.digitGo Char.isDigit [] s := by
      unfold Dates.digit_substr
      exact digitGo_congr Py.isdigitCh Char.isDigit s [] hps
    have hchars : ∀ r ∈ (Dates.digit_substr s).filter (fun r => r.length = 4),
        ∀ c ∈ r, c.isDigit = true := by
      intro r hr c hc
      have hr2 : r ∈ Dates.digitGo Char.isDigit [] s := by
        rw [← hds]
        exact List.mem_of_mem_filter hr
      exact digitGo_chars Char.isDigit s [] (by simp) r hr2 c hc
    rw [guess_year_reduce currentYear s _ (intsOfRuns_ascii _ hchars)]
    have hruns : (Dates.digit_substr s).filter (fun r => r.length = 4)
        = (Dates.digitRuns s).filter (fun r => r.length = 4) := by
      rw [hds, digitGo_ascii_eq_digitRuns]
    have hfil : ∀ l : List Nat, l.filter (Dates.is_year currentYear)
        = l.filter (fun y => 1960 ≤ y ∧ y ≤ currentYear + 1) := fun l => rfl
    simp only [Dates.inferYearSpec, Dates.specCandidates, hruns, hfil]
  · rw [guess_year_reduce currentYear _ [1994] (by rfl)]
    simp [hy94]
  · rw [guess_year_reduce currentYear _ [1994, 1995] (by rfl)]
    simp [hy94, hy95]
  · rw [guess_year_reduce currentYear _ [] (by rfl)]
    simp
  · rw [guess_year_reduce currentYear _ [1899] (by rfl)]
    simp [hy99]

/-- C8 (witness): the theorem applied in a concrete year, with the ASCII
agreement exercised at a concrete string. -/
theorem c8_infer_year_witness :
    Dates.guess_year 2024 (String.toList "Album 1994 Remaster") = .ok (some 1994)
    ∧ Dates.guess_year 2024 (String.toList "Best of 1994 and 1995") = .ok none
    ∧ Dates.guess_year 2024 (String.toList "Greatest Hits") = .ok none
    ∧ Dates.guess_year 2024 (String.toList "Live 1899") = .ok none
    ∧ Dates.guess_year 2024 (String.toList "Live in 2003")
      = .ok (Dates.inferYearSpec 2024 (String.toList "Live in 2003")) := by
  have h := c8_infer_year 2024 (by decide)
  exact ⟨h.2.1, h.2.2.1, h.2.2.2.1, h.2.2.2.2,
    h.1 (String.toList "Live in 2003") (by decide)⟩

/-- C8 (counterexample): the claimed totality is false of the program.
Python's `str.isdigit` accepts the superscript two, so `"²²²²"` is one
maximal digit run of length 4, and `int` raises `ValueError` on it —
`guess_year` raises rather than returning a value; and on the
Arabic-Indic digits of `"١٩٩٤"` the program returns the year 1994 where
the ASCII reading of "digit characters" (the spec-worded `inferYearSpec`)
finds no digit run at all. -/
theorem c8_counterexample :
    Py.isdigitCh '²' = true
    ∧ Py.intDigitRun (String.toList "²²²²") = .error ()
    ∧ Dates.guess_year 2024 (String.toList "²²²²") = .error ()
    ∧ Dates.guess_year 2024 (String.toList "١٩٩٤") = .ok (some 1994)
    ∧ Dates.inferYearSpec 2024 (String.toList "١٩٩٤") = none := by
  refine ⟨by decide, by rfl, by rfl, by rfl, ?_⟩
  have hruns : Dates.digitRuns ['١', '٩', '٩', '٤'] = [] := by
    rw [digitRuns_cons_nondigit _ _ (by decide),
      digitRuns_cons_nondigit _ _ (by decide),
      digitRuns_cons_nondigit _ _ (by decide),
      digitRuns_cons_nondigit _ _ (by decide), digitRuns_nil]
  simp [Dates.inferYearSpec, Dates.specCandidates, hruns]

/-- Emptiness of `valid_names` says no image stem is a valid cover
name. -/
theorem valid_names_empty_iff (images : List PyStr) :
    (Covers.valid_names images).isEmpty = true
      ↔ ∀ i ∈ images, Covers.lowername i ∉ Covers.NAMES := by
  simp [Covers.valid_names, List.isEmpty_iff, List.filter_eq_nil_iff]

/-- C9: the cover-art check — on a media directory it reports "no cover"
exactly when there are no images; otherwise it reports wrong cover names
with count equal to the number of images exactly when no image's
lower-cased extension-stripped stem is a valid cover name; otherwise it
reports nothing; non-media directories are never checked; no filesystem
action is ever performed. -/
theorem c9_cover_check (d : Dir.Directory)
    (h : d.lossless ≠ [] ∨ d.compressed ≠ []) :
    ((Covers.cover_lint d).no_cover = true ↔ d.images = [])
    ∧ ((Covers.cover_lint d).nr_wrong_name ≠ 0
        ↔ d.images ≠ [] ∧ ∀ i ∈ d.images, Covers.lowername i ∉ Covers.NAMES)
    ∧ ((Covers.cover_lint d).nr_wrong_name ≠ 0
        → (Covers.cover_lint d).nr_wrong_name = d.images.length)
    ∧ (∀ d2 : Dir.Directory, d2.lossless = [] → d2.compressed = []
        → Covers.cover_lint d2 = Covers.coverInit)
    ∧ (Covers.cover_lint d).actions = [] := by
  have hmedia : ¬ (d.lossless = [] ∧ d.compressed = []) := by
    rcases h with h | h
    · exact fun hc => h hc.1
    · exact fun hc => h hc.2
  have hnever : ∀ d2 : Dir.Directory, d2.lossless = [] → d2.compressed = []
      → Covers.cover_lint d2 = Covers.coverInit := by
    intro d2 h1 h2
    simp [Covers.cover_lint, h1, h2]
  by_cases himg : d.images = []
  · have hlint : Covers.cover_lint d = { Covers.coverInit with no_cover := true } := by
      simp [Covers.cover_lint, hmedia, himg]
    rw [hlint]
    refine ⟨by simp [Covers.coverInit, himg], ?_, ?_, hnever, by simp [Covers.coverInit]⟩
    · simp [Covers.coverInit, himg]
    · simp [Covers.coverInit]
  · by_cases hval : Covers.valid_names d.images = []
    · have hstems := (valid_names_empty_iff d.images).mp (by simp [hval])
      have hlint : Covers.cover_lint d
          = { Covers.coverInit with nr_wrong_name := d.images.length } := by
        simp [Covers.cover_lint, hmedia, himg, hval]
      rw [hlint]
      have hlen : d.images.length ≠ 0 := by
        simpa [List.length_eq_zero] using himg
      refine ⟨by simp [Covers.coverInit, himg], ?_, ?_, hnever, by simp [Covers.coverInit]⟩
      · simp only [Covers.coverInit]
        constructor
        · intro _
          exact ⟨himg, hstems⟩
        · intro _
          exact hlen
      · intro _
        rfl
    · have hsome : ∃ i ∈ d.images, Covers.lowername i ∈ Covers.NAMES := by
        have := (not_iff_not.mpr (valid_names_empty_iff d.images)).mp (by simp [hval])
        push_neg at this
        exact this
      have hlint : Covers.cover_lint d = Covers.coverInit := by
        simp [Covers.cover_lint, hmedia, himg, hval]
      rw [hlint]
      refine ⟨by simp [Covers.coverInit, himg], ?_, ?_, hnever, by simp [Covers.coverInit]⟩
      · simp only [Covers.coverInit]
        constructor
        · intro hc
          simp at hc
        · rintro ⟨-, hall⟩
          rcases hsome with ⟨i, hi, hmem⟩
          exact absurd hmem (hall i hi)
      · intro hc
        simp [Covers.coverInit] at hc

/-- C9 (witness): the theorem applied to the spec's three §8 cover
examples. -/
theorem c9_cover_check_witness :
    ((Covers.cover_lint (Dir.analyze (String.toList "r")
        ((["t.flac", "Front.jpg"]).map String.toList))).nr_wrong_name = 0
      ∧ (Covers.cover_lint (Dir.analyze (String.toList "r")
        ((["t.flac", "Front.jpg"]).map String.toList))).no_cover = false)
    ∧ (Covers.cover_lint (Dir.analyze (String.toList "r")
        ((["t.flac", "scan1.jpg", "scan2.jpg"]).map String.toList))).nr_wrong_name = 2
    ∧ (Covers.cover_lint (Dir.analyze (String.toList "r")
        ((["t.flac"]).map String.toList))).no_cover = true := by
  have h1 := c9_cover_check (Dir.analyze (String.toList "r")
    ((["t.flac", "Front.jpg"]).map String.toList)) (by decide)
  have h2 := c9_cover_check (Dir.analyze (String.toList "r")
    ((["t.flac", "scan1.jpg", "scan2.jpg"]).map String.toList)) (by decide)
  have h3 := c9_cover_check (Dir.analyze (String.toList "r")
    ((["t.flac"]).map String.toList)) (by decide)
  refine ⟨⟨?_, ?_⟩, ?_, ?_⟩
  · by_contra hc
    have := (h1.2.1.mp hc).2
    exact absurd (this (String.toList "Front.jpg") (by decide)) (by decide)
  · by_contra hc
    have hb : (Covers.cover_lint (Dir.analyze (String.toList "r")
        ((["t.flac", "Front.jpg"]).map String.toList))).no_cover = true := by
      revert hc
      decide
    have := h1.1.mp hb
    exact absurd this (by decide)
  · have hne : (Covers.cover_lint (Dir.analyze (String.toList "r")
        ((["t.flac", "scan1.jpg", "scan2.jpg"]).map String.toList))).nr_wrong_name ≠ 0 := by
      apply (h2.2.1.mpr)
      constructor
      · decide
      · decide
    have := h2.2.2.1 hne
    simpa using this
  · apply h3.1.mpr
    decide

/-- Effect of `analyze_file` on the lossless list. -/
theorem analyze_file_lossless (d : Dir.Directory) (f : PyStr) :
    (Dir.analyze_file d f).lossless
      = if Dir.classify f = .lossless then d.lossless ++ [f] else d.lossless := by
  unfold Dir.analyze_file
  rcases h : Dir.classify f <;> simp [h]

/-- Effect of `analyze_file` on the compressed list. -/
theorem analyze_file_compressed (d : Dir.Directory) (f : PyStr) :
    (Dir.analyze_file d f).compressed
      = if Dir.classify f = .compressed then d.compressed ++ [f] else d.compressed := by
  unfold Dir.analyze_file
  rcases h : Dir.classify f <;> simp [h]

/-- Effect of `analyze_file` on the cue list. -/
theorem analyze_file_cue (d : Dir.Directory) (f : PyStr) :
    (Dir.analyze_file d f).cue
      = if Dir.classify f = .index then d.cue ++ [f] else d.cue := by
  unfold Dir.analyze_file
  rcases h : Dir.classify f <;> simp [h]

/-- Effect of `analyze_file` on the image list. -/
theorem analyze_file_images (d : Dir.Directory) (f : PyStr) :
    (Dir.analyze_file d f).images
      = if Dir.classify f = .image then d.images ++ [f] else d.images := by
  unfold Dir.analyze_file
  rcases h : Dir.classify f <;> simp [h]

/-- Effect of `analyze_file` on the video list. -/
theorem analyze_file_videos (d : Dir.Directory) (f : PyStr) :
    (Dir.analyze_file d f).videos
      = if Dir.classify f = .video then d.videos ++ [f] else d.videos := by
  unfold Dir.analyze_file
  rcases h : Dir.classify f <;> simp [h]

/-- Effect of `analyze_file` on the playlist list. -/
theorem analyze_file_playlist (d : Dir.Directory) (f : PyStr) :
    (Dir.analyze_file d f).playlist
      = if Dir.classify f = .playlist then d.playlist ++ [f] else d.playlist := by
  unfold Dir.analyze_file
  rcases h : Dir.classify f <;> simp [h]

/-- Effect of `analyze_file` on the ignored counter. -/
theorem analyze_file_ignored (d : Dir.Directory) (f : PyStr) :
    (Dir.analyze_file d f).ignored
      = if Dir.classify f = .ignored then d.ignored + 1 else d.ignored := by
  unfold Dir.analyze_file
  rcases h : Dir.classify f <;> simp [h]

/-- Effect of `analyze_file` on the unknown dictionary. -/
theorem analyze_file_unknown (d : Dir.Directory) (f : PyStr) :
    (Dir.analyze_file d f).unknown
      = match Dir.classify f with
        | .unknown e => Dir.count d.unknown e
        | _ => d.unknown := by
  unfold Dir.analyze_file
  rcases h : Dir.classify f <;> simp [h]

/-- Generic projection law for the classification fold: any projection
that appends the file exactly on its own category. -/
theorem analyze_foldl_filter (proj : Dir.Directory → List PyStr) (cat : Dir.Category)
    (hproj : ∀ d f, proj (Dir.analyze_file d f)
      = if Dir.classify f = cat then proj d ++ [f] else proj d) :
    ∀ (files : List PyStr) (d0 : Dir.Directory),
      proj (files.foldl Dir.analyze_file d0)
        = proj d0 ++ files.filter (fun f => Dir.classify f = cat) := by
  intro files
  induction files with
  | nil => intro d0; simp
  | cons f fs ih =>
    intro d0
    rw [List.foldl_cons, ih, hproj, List.filter_cons]
    by_cases h : Dir.classify f = cat
    · simp [h]
    · simp [h]

/-- The ignored counter counts exactly the Ignored files. -/
theorem analyze_foldl_ignored :
    ∀ (files : List PyStr) (d0 : Dir.Directory),
      (files.foldl Dir.analyze_file d0).ignored
        = d0.ignored + (files.filter (fun f => Dir.classify f = .ignored)).length := by
  intro files
  induction files with
  | nil => intro d0; simp
  | cons f fs ih =>
    intro d0
    rw [List.foldl_cons, ih, analyze_file_ignored, List.filter_cons]
    by_cases h : Dir.classify f = .ignored
    · simp [h]
      omega
    · simp [h]

/-- Unfolding of `unkFold` at an Unknown-classified file. -/
theorem unkFold_cons_unknown (u : List (PyStr × Nat)) (f : PyStr) (fs : List PyStr)
    (e : PyStr) (hc : Dir.classify f = .unknown e) :
    Dir.unkFold u (f :: fs) = Dir.unkFold (Dir.count u e) fs := by
  rw [Dir.unkFold, List.foldl_cons, hc]
  rfl

/-- Unfolding of `unkFold` at a known-category file. -/
theorem unkFold_cons_other (u : List (PyStr × Nat)) (f : PyStr) (fs : List PyStr)
    (hc : Dir.isUnknownCat (Dir.classify f) = false) :
    Dir.unkFold u (f :: fs) = Dir.unkFold u fs := by
  rw [Dir.unkFold, List.foldl_cons]
  rcases h2 : Dir.classify f with _ | _ | _ | _ | _ | _ | _ | e
  case unknown =>
    rw [h2] at hc
    simp [Dir.isUnknownCat] at hc
  all_goals rfl

/-- The unknown dictionary accumulates through `unkFold`. -/
theorem analyze_foldl_unknown :
    ∀ (files : List PyStr) (d0 : Dir.Directory),
      (files.foldl Dir.analyze_file d0).unknown = Dir.unkFold d0.unknown files := by
  intro files
  induction files with
  | nil => intro d0; simp [Dir.unkFold]
  | cons f fs ih =>
    intro d0
    rw [List.foldl_cons, ih, analyze_file_unknown]
    rfl

/-- `count` increases the total tally by one. -/
theorem count_sum (u : List (PyStr × Nat)) (e : PyStr) :
    ((Dir.count u e).map (fun p => p.2)).sum = ((u.map (fun p => p.2)).sum) + 1 := by
  induction u with
  | nil => simp [Dir.count]
  | cons p rest ih =>
    rcases p with ⟨k, n⟩
    by_cases h : k = e
    · simp [Dir.count, h]
      omega
    · simp [Dir.count, h, ih]
      omega

/-- Keys of `count`: the counted key is added, others are preserved. -/
theorem count_keys (u : List (PyStr × Nat)) (e k : PyStr) :
    (∃ n, (k, n) ∈ Dir.count u e) ↔ (k = e ∨ ∃ n, (k, n) ∈ u) := by
  induction u with
  | nil =>
    simp [Dir.count]
  | cons p rest ih =>
    rcases p with ⟨k2, n2⟩
    by_cases h : k2 = e
    · subst h
      simp only [Dir.count, if_pos rfl]
      constructor
      · rintro ⟨n, hn⟩
        rcases List.mem_cons.mp hn with h2 | h2
        · simp only [Prod.mk.injEq] at h2
          exact Or.inl h2.1
        · exact Or.inr ⟨n, List.mem_cons_of_mem _ h2⟩
      · rintro (rfl | ⟨n, hn⟩)
        · exact ⟨n2 + 1, List.mem_cons_self _ _⟩
        · rcases List.mem_cons.mp hn with h2 | h2
          · simp only [Prod.mk.injEq] at h2
            rcases h2 with ⟨h3, -⟩
            subst h3
            exact ⟨n2 + 1, List.mem_cons_self _ _⟩
          · exact ⟨n, List.mem_cons_of_mem _ h2⟩
    · simp only [Dir.count, if_neg h]
      constructor
      · rintro ⟨n, hn⟩
        rcases List.mem_cons.mp hn with h2 | h2
        · simp only [Prod.mk.injEq] at h2
          rcases h2 with ⟨h3, -⟩
          subst h3
          exact Or.inr ⟨n2, List.mem_cons_self _ _⟩
        · rcases ih.mp ⟨n, h2⟩ with h3 | ⟨n3, h3⟩
          · exact Or.inl h3
          · exact Or.inr ⟨n3, List.mem_cons_of_mem _ h3⟩
      · rintro (rfl | ⟨n, hn⟩)
        · rcases ih.mpr (Or.inl rfl) with ⟨n3, h3⟩
          exact ⟨n3, List.mem_cons_of_mem _ h3⟩
        · rcases List.mem_cons.mp hn with h2 | h2
          · simp only [Prod.mk.injEq] at h2
            rcases h2 with ⟨h3, -⟩
            subst h3
            exact ⟨n2, List.mem_cons_self _ _⟩
          · rcases ih.mpr (Or.inr ⟨n, h2⟩) with ⟨n3, h3⟩
            exact ⟨n3, List.mem_cons_of_mem _ h3⟩

/-- Tally of `unkFold`: one per Unknown-classified file. -/
theorem unkFold_sum :
    ∀ (files : List PyStr) (u : List (PyStr × Nat)),
      ((Dir.unkFold u files).map (fun p => p.2)).sum
        = (u.map (fun p => p.2)).sum
          + (files.filter (fun f => Dir.isUnknownCat (Dir.classify f))).length := by
  intro files
  induction files with
  | nil => intro u; simp [Dir.unkFold]
  | cons f fs ih =>
    intro u
    rw [List.filter_cons]
    rcases hc : Dir.classify f with _ | _ | _ | _ | _ | _ | _ | e
    case unknown =>
      rw [unkFold_cons_unknown u f fs e hc, ih, count_sum]
      simp [Dir.isUnknownCat]
      omega
    all_goals {
      rw [unkFold_cons_other u f fs (by rw [hc]; rfl), ih]
      simp [Dir.isUnknownCat]
    }

/-- Keys of `unkFold`: exactly the previously recorded keys plus the
Unknown extensions of the processed files. -/
theorem unkFold_keys :
    ∀ (files : List PyStr) (u : List (PyStr × Nat)) (k : PyStr),
      (∃ n, (k, n) ∈ Dir.unkFold u files)
        ↔ ((∃ n, (k, n) ∈ u) ∨ ∃ f ∈ files, Dir.classify f = .unknown k) := by
  intro files
  induction files with
  | nil => intro u k; simp [Dir.unkFold]
  | cons f fs ih =>
    intro u k
    rcases hc : Dir.classify f with _ | _ | _ | _ | _ | _ | _ | e
    case unknown =>
      rw [unkFold_cons_unknown u f fs e hc, ih, count_keys]
      constructor
      · rintro ((rfl | h) | ⟨g, hg, hcl⟩)
        · exact Or.inr ⟨f, List.mem_cons_self _ _, hc⟩
        · exact Or.inl h
        · exact Or.inr ⟨g, List.mem_cons_of_mem _ hg, hcl⟩
      · rintro (h | ⟨g, hg, hcl⟩)
        · exact Or.inl (Or.inr h)
        · rcases List.mem_cons.mp hg with rfl | hg2
          · rw [hc] at hcl
            cases hcl
            exact Or.inl (Or.inl rfl)
          · exact Or.inr ⟨g, hg2, hcl⟩
    all_goals {
      rw [unkFold_cons_other u f fs (by rw [hc]; rfl), ih]
      constructor
      · rintro (h | ⟨g, hg, hcl⟩)
        · exact Or.inl h
        · exact Or.inr ⟨g, List.mem_cons_of_mem _ hg, hcl⟩
      · rintro (h | ⟨g, hg, hcl⟩)
        · exact Or.inl h
        · rcases List.mem_cons.mp hg with rfl | hg2
          · rw [hc] at hcl
            cases hcl
          · exact Or.inr ⟨g, hg2, hcl⟩
    }

/-- Every file falls in exactly one category: the filtered counts sum to
the number of files. -/
theorem classify_partition_count :
    ∀ files : List PyStr,
      (files.filter (fun f => Dir.classify f = .lossless)).length
        + (files.filter (fun f => Dir.classify f = .compressed)).length
        + (files.filter (fun f => Dir.classify f = .index)).length
        + (files.filter (fun f => Dir.classify f = .image)).length
        + (files.filter (fun f => Dir.classify f = .video)).length
        + (files.filter (fun f => Dir.classify f = .playlist)).length
        + (files.filter (fun f => Dir.classify f = .ignored)).length
        + (files.filter (fun f => Dir.isUnknownCat (Dir.classify f))).length
      = files.length := by
  intro files
  induction files with
  | nil => simp
  | cons f fs ih =>
    have hlen : ∀ (b : Bool) (g : PyStr) (l : List PyStr),
        (if b = true then g :: l else l).length = l.length + b.toNat := by
      intro b g l
      cases b <;> simp
    simp only [List.filter_cons, List.length_cons]
    rw [hlen, hlen, hlen, hlen, hlen, hlen, hlen, hlen]
    have hone : (decide (Dir.classify f = Dir.Category.lossless)).toNat
        + (decide (Dir.classify f = Dir.Category.compressed)).toNat
        + (decide (Dir.classify f = Dir.Category.index)).toNat
        + (decide (Dir.classify f = Dir.Category.image)).toNat
        + (decide (Dir.classify f = Dir.Category.video)).toNat
        + (decide (Dir.classify f = Dir.Category.playlist)).toNat
        + (decide (Dir.classify f = Dir.Category.ignored)).toNat
        + (Dir.isUnknownCat (Dir.classify f)).toNat = 1 := by
      rcases hc : Dir.classify f with _ | _ | _ | _ | _ | _ | _ | e <;> rfl
    omega

/-- An Unknown verdict of the extension table carries the looked-up
extension itself. -/
theorem classifyExt_unknown_eq (x e : PyStr) :
    Dir.classifyExt x = .unknown e → e = x := by
  unfold Dir.classifyExt
  split_ifs <;> intro h <;> simp_all

/-- C10: after `analyze`, every regular file is counted in exactly one of
the classified lists, the ignored counter and the unknown-extension map —
each list is the in-order filter of its category, the counts sum to the
number of files — and the recorded unknown extensions are exactly the
lower-cased extensions of the files that are absent from the fixed
table. -/
theorem c10_partition (path : PyStr) (files : List PyStr) :
    (Dir.analyze path files).lossless
        = files.filter (fun f => Dir.classify f = .lossless)
    ∧ (Dir.analyze path files).compressed
        = files.filter (fun f => Dir.classify f = .compressed)
    ∧ (Dir.analyze path files).cue
        = files.filter (fun f => Dir.classify f = .index)
    ∧ (Dir.analyze path files).images
        = files.filter (fun f => Dir.classify f = .image)
    ∧ (Dir.analyze path files).videos
        = files.filter (fun f => Dir.classify f = .video)
    ∧ (Dir.analyze path files).playlist
        = files.filter (fun f => Dir.classify f = .playlist)
    ∧ (Dir.analyze path files).ignored
        = (files.filter (fun f => Dir.classify f = .ignored)).length
    ∧ (Dir.analyze path files).lossless.length
        + (Dir.analyze path files).compressed.length
        + (Dir.analyze path files).cue.length
        + (Dir.analyze path files).images.length
        + (Dir.analyze path files).videos.length
        + (Dir.analyze path files).playlist.length
        + (Dir.analyze path files).ignored
        + (((Dir.analyze path files).unknown).map (fun p => p.2)).sum
      = files.length
    ∧ (∀ e : PyStr, (∃ n, (e, n) ∈ (Dir.analyze path files).unknown)
        ↔ (∃ f ∈ files, Dir.lowerext f = e) ∧ Dir.classifyExt e = .unknown e) := by
  have hl := analyze_foldl_filter (fun d => d.lossless) .lossless
    analyze_file_lossless files (Dir.emptyDir path)
  have hc := analyze_foldl_filter (fun d => d.compressed) .compressed
    analyze_file_compressed files (Dir.emptyDir path)
  have hq := analyze_foldl_filter (fun d => d.cue) .index
    analyze_file_cue files (Dir.emptyDir path)
  have hi := analyze_foldl_filter (fun d => d.images) .image
    analyze_file_images files (Dir.emptyDir path)
  have hv := analyze_foldl_filter (fun d => d.videos) .video
    analyze_file_videos files (Dir.emptyDir path)
  have hp := analyze_foldl_filter (fun d => d.playlist) .playlist
    analyze_file_playlist files (Dir.emptyDir path)
  have hg := analyze_foldl_ignored files (Dir.emptyDir path)
  have hu := analyze_foldl_unknown files (Dir.emptyDir path)
  have hl2 : (Dir.analyze path files).lossless
      = files.filter (fun f => Dir.classify f = .lossless) := by
    rw [Dir.analyze, hl]
    simp [Dir.emptyDir]
  have hc2 : (Dir.analyze path files).compressed
      = files.filter (fun f => Dir.classify f = .compressed) := by
    rw [Dir.analyze, hc]
    simp [Dir.emptyDir]
  have hq2 : (Dir.analyze path files).cue
      = files.filter (fun f => Dir.classify f = .index) := by
    rw [Dir.analyze, hq]
    simp [Dir.emptyDir]
  have hi2 : (Dir.analyze path files).images
      = files.filter (fun f => Dir.classify f = .image) := by
    rw [Dir.analyze, hi]
    simp [Dir.emptyDir]
  have hv2 : (Dir.analyze path files).videos
      = files.filter (fun f => Dir.classify f = .video) := by
    rw [Dir.analyze, hv]
    simp [Dir.emptyDir]
  have hp2 : (Dir.analyze path files).playlist
      = files.filter (fun f => Dir.classify f = .playlist) := by
    rw [Dir.analyze, hp]
    simp [Dir.emptyDir]
  have hg2 : (Dir.analyze path files).ignored
      = (files.filter (fun f => Dir.classify f = .ignored)).length := by
    rw [Dir.analyze, hg]
    simp [Dir.emptyDir]
  have hu2 : (Dir.analyze path files).unknown = Dir.unkFold [] files := by
    rw [Dir.analyze, hu]
    simp [Dir.emptyDir]
  refine ⟨hl2, hc2, hq2, hi2, hv2, hp2, hg2, ?_, ?_⟩
  · rw [hl2, hc2, hq2, hi2, hv2, hp2, hg2, hu2, unkFold_sum files []]
    simp only [List.map_nil, List.sum_nil]
    have := classify_partition_count files
    omega
  · intro e
    rw [hu2, unkFold_keys files [] e]
    have hnil : ¬ ∃ n : Nat, (e, n) ∈ ([] : List (PyStr × Nat)) := by simp
    rw [or_iff_right hnil]
    constructor
    · rintro ⟨f, hf, hcl⟩
      have hee : e = Dir.lowerext f := classifyExt_unknown_eq _ _ hcl
      subst hee
      exact ⟨⟨f, hf, rfl⟩, hcl⟩
    · rintro ⟨⟨f, hf, hee⟩, hext⟩
      subst hee
      exact ⟨f, hf, hext⟩

/-- Joining three pieces with `'.'` (Python `'.'.join([a, b, c])`). -/
theorem intercalate_three (a b c : PyStr) :
    List.intercalate ['.'] [a, b, c] = a ++ '.' :: (b ++ '.' :: c) := by
  simp [List.intercalate, List.intersperse]

/-- On the fall-through path with `can_fix` set, the repair suffix is
`utf8` (encoding fix) or the lower-cased extension of the resolved
replacement file (stale-reference fix). -/
theorem analyze_done_suffix (cuePath : PyStr) (files : List PyStr) (detected : PyStr)
    (content : PyStr) (year : Nat) (ok : Bool) (suf : PyStr)
    (h : (Script.analyze_cue cuePath files detected content year).outcome
      = .done ok true suf) :
    suf = String.toList "utf8" ∨ ∃ f ∈ files, suf = Script.fileextlow f := by
  unfold Script.analyze_cue at h
  rcases hscan : Script.scanLines none none (splitlinesL content) with err | pair
  · rcases err <;> rw [hscan] at h <;> simp at h
  · rcases pair with ⟨fn?, d?⟩
    rw [hscan] at h
    simp only at h
    by_cases htr : strTruthy fn?
    · rw [if_pos htr] at h
      by_cases hmem : fn?.getD [] ∈ files
      · rw [if_pos hmem] at h
        simp only [Script.CueOutcome.done.injEq] at h
        rcases h with ⟨-, hcf, hsuf⟩
        by_cases henc : detected ∈ Script.CUE_ENCODING
        · simp [henc] at hcf
        · simp [henc] at hsuf
          exact Or.inl hsuf.symm
      · rw [if_neg hmem] at h
        rcases hfind : Script.findTupleMatch files (fn?.getD []) with _ | f
        · rw [hfind] at h
          simp at h
        · rw [hfind] at h
          simp only [Script.CueOutcome.done.injEq] at h
          rcases h with ⟨-, -, hsuf⟩
          right
          refine ⟨f, ?_, hsuf.symm⟩
          exact List.mem_of_find?_eq_some hfind
    · rw [if_neg htr] at h
      simp at h

/-- C4: when the analysed document is invalid and repairable and both
repair mode and overwrite mode are on, `process_cue_data` first renames
the original file to its name plus the fixed `.bak` suffix and then
writes the corrected content back to the original path. -/
theorem c4_overwrite_repair (cuePath : PyStr) (files : List PyStr) (detected : PyStr)
    (content : PyStr) (year : Nat) (suf : PyStr)
    (h : (Script.analyze_cue cuePath files detected content year).outcome
      = .done false true suf) :
    (Script.process_cue_data cuePath files .overwriteCue detected content year).actions
      = [.rename cuePath (cuePath ++ String.toList ".bak"),
          .write cuePath
            (Script.process_cue_data cuePath files .overwriteCue detected content year).content]
    ∧ (Script.process_cue_data cuePath files .overwriteCue detected content year).ret
      = false := by
  simp only [Script.process_cue_data, Script.finalizeCue, h, Script.CueFix.toNat]
  simp

/-- C4 (witness): a concrete wrongly encoded document in overwrite mode:
rename to the backup name, then write back to the original path. -/
theorem c4_overwrite_repair_witness :
    (Script.process_cue_data (String.toList "d/a.cue") [String.toList "track.flac"]
        .overwriteCue (String.toList "MacCyrillic")
        (String.toList "FILE \"track.flac\" WAVE\nREM DATE 1994") 2026).actions
      = [.rename (String.toList "d/a.cue") (String.toList "d/a.cue.bak"),
          .write (String.toList "d/a.cue")
            (String.toList "FILE \"track.flac\" WAVE\nREM DATE 1994")] := by
  have h := c4_overwrite_repair (String.toList "d/a.cue") [String.toList "track.flac"]
    (String.toList "MacCyrillic")
    (String.toList "FILE \"track.flac\" WAVE\nREM DATE 1994") 2026
    (String.toList "utf8") (by decide)
  rw [h.1]
  decide

/-- C5: when the analysed document is invalid and repairable, repair mode
is on and overwrite mode is off, `process_cue_data` writes the corrected
content to a fresh sibling file named stem + `.` + repair-suffix-tag +
`.cue`, never touching the original path; the tag is `utf8` for an
encoding fix or the resolved file's lower-cased extension for a
stale-reference fix. -/
theorem c5_new_file_repair (cuePath : PyStr) (files : List PyStr) (detected : PyStr)
    (content : PyStr) (year : Nat) (suf : PyStr)
    (h : (Script.analyze_cue cuePath files detected content year).outcome
      = .done false true suf) :
    (Script.process_cue_data cuePath files .newCue detected content year).actions
      = [.write (cuePath.take (cuePath.length - 4) ++ '.' :: (suf ++ String.toList ".cue"))
          (Script.process_cue_data cuePath files .newCue detected content year).content]
    ∧ cuePath.take (cuePath.length - 4) ++ '.' :: (suf ++ String.toList ".cue") ≠ cuePath
    ∧ (suf = String.toList "utf8" ∨ ∃ f ∈ files, suf = Script.fileextlow f)
    ∧ (Script.process_cue_data cuePath files .newCue detected content year).ret = false := by
  have hsuffix := analyze_done_suffix cuePath files detected content year false suf h
  have hshape : List.intercalate ['.']
      [cuePath.take (cuePath.length - 4), suf, String.toList "cue"]
      = cuePath.take (cuePath.length - 4) ++ '.' :: (suf ++ String.toList ".cue") := by
    rw [intercalate_three]
    simp
  refine ⟨?_, ?_, hsuffix, ?_⟩
  · simp only [Script.process_cue_data, Script.finalizeCue, h, Script.CueFix.toNat, hshape]
    simp
  · intro hc
    have hlen := congrArg List.length hc
    simp only [List.length_append, List.length_take, List.length_cons] at hlen
    have : (String.toList ".cue").length = 4 := by decide
    omega
  · simp only [Script.process_cue_data, Script.finalizeCue, h, Script.CueFix.toNat]
    simp

/-- C5 (witness): a concrete wrongly encoded document in new-file mode:
one write to `d/a.utf8.cue`, the original `d/a.cue` untouched. -/
theorem c5_new_file_repair_witness :
    (Script.process_cue_data (String.toList "d/a.cue") [String.toList "track.flac"]
        .newCue (String.toList "MacCyrillic")
        (String.toList "FILE \"track.flac\" WAVE\nREM DATE 1994") 2026).actions
      = [.write (String.toList "d/a.utf8.cue")
          (String.toList "FILE \"track.flac\" WAVE\nREM DATE 1994")]
    ∧ String.toList "d/a.utf8.cue" ≠ String.toList "d/a.cue" := by
  have h := c5_new_file_repair (String.toList "d/a.cue") [String.toList "track.flac"]
    (String.toList "MacCyrillic")
    (String.toList "FILE \"track.flac\" WAVE\nREM DATE 1994") 2026
    (String.toList "utf8") (by decide)
  constructor
  · rw [h.1]
    decide
  · decide

/-- The scan loop skips lines that do not begin with `FILE`, only folding
the date tracking over them. -/
theorem scanLines_append_skip (A : List PyStr)
    (hA : ∀ l ∈ A, Script.isFileDecl (stripL l) = false) :
    ∀ (R : List PyStr) (fn d : Option PyStr),
      Script.scanLines fn d (A ++ R)
        = Script.scanLines fn (Script.foldDate A d) R := by
  induction A with
  | nil =>
    intro R fn d
    simp [Script.foldDate]
  | cons l A2 ih =>
    intro R fn d
    have hl := hA l (List.mem_cons_self _ _)
    have hA2 : ∀ l2 ∈ A2, Script.isFileDecl (stripL l2) = false :=
      fun l2 hm => hA l2 (List.mem_cons_of_mem _ hm)
    have hfold : Script.foldDate (l :: A2) d
        = Script.foldDate A2 (Script.dateStep d l) := by
      simp [Script.foldDate]
    rw [List.cons_append, Script.scanLines, hfold]
    simp only [hl, Bool.false_eq_true, if_false]
    by_cases hd : Script.isDateDecl (stripL l)
    · rw [if_pos hd, ih hA2]
      have : Script.dateStep d l = some (Script.dateToken (stripL l)) := by
        simp [Script.dateStep, hl, hd]
      rw [this]
    · rw [if_neg hd, ih hA2]
      have : Script.dateStep d l = d := by
        simp [Script.dateStep, hl, hd]
      rw [this]

/-- C1 (amended): a document whose line list contains at least two `FILE`
lines, the first of them well formed with a non-empty quoted name, makes
`process_cue_data` abort at the second `FILE` line: the result reports
the number of entries of the audio list it was given, returns invalid,
is unrepairable, and performs no filesystem action, for every repair
mode. -/
theorem c1_multiple_file_lines (cuePath : PyStr) (files : List PyStr)
    (fixCue : Script.CueFix) (detected content : PyStr) (year : Nat)
    (A B C : List PyStr) (l1 l2 u v w : PyStr)
    (hsplit : splitlinesL content = A ++ l1 :: (B ++ l2 :: C))
    (hA : ∀ l ∈ A, Script.isFileDecl (stripL l) = false)
    (hB : ∀ l ∈ B, Script.isFileDecl (stripL l) = false)
    (h1 : Script.isFileDecl (stripL l1) = true)
    (h2 : Script.isFileDecl (stripL l2) = true)
    (hparts : splitCharL '"' (stripL l1) = [u, v, w])
    (hv : v ≠ []) :
    (Script.process_cue_data cuePath files fixCue detected content year).outcome
      = .multipleFiles files.length
    ∧ (Script.process_cue_data cuePath files fixCue detected content year).ret = false
    ∧ (Script.process_cue_data cuePath files fixCue detected content year).actions = []
    ∧ (Script.process_cue_data cuePath files fixCue detected content year).content
      = content := by
  have hscan : Script.scanLines none none (splitlinesL content) = .error .multiple := by
    rw [hsplit, scanLines_append_skip A hA]
    rw [Script.scanLines]
    simp only [h1, if_true, strTruthy, Bool.false_eq_true, if_false, hparts]
    rw [scanLines_append_skip B hB]
    rw [Script.scanLines]
    have htr : strTruthy (some v) = true := by
      simp [strTruthy, hv]
    simp [h2, htr]
  have hana : Script.analyze_cue cuePath files detected content year
      = ⟨.multipleFiles files.length, content, true, none⟩ := by
    unfold Script.analyze_cue
    rw [hscan]
  simp [Script.process_cue_data, hana, Script.finalizeCue]

/-- C1 (witness): the spec's two-`FILE` document, with repair and
overwrite on: abort reporting one audio file, no mutation. -/
theorem c1_multiple_file_lines_witness :
    (Script.process_cue_data (String.toList "d/a.cue") [String.toList "track.flac"]
        .overwriteCue (String.toList "ascii")
        (String.toList "FILE \"a.flac\" WAVE\nFILE \"track.flac\" WAVE\nREM DATE 1994")
        2026).outcome
      = .multipleFiles 1
    ∧ (Script.process_cue_data (String.toList "d/a.cue") [String.toList "track.flac"]
        .overwriteCue (String.toList "ascii")
        (String.toList "FILE \"a.flac\" WAVE\nFILE \"track.flac\" WAVE\nREM DATE 1994")
        2026).actions = [] := by
  have h := c1_multiple_file_lines (String.toList "d/a.cue") [String.toList "track.flac"]
    .overwriteCue (String.toList "ascii")
    (String.toList "FILE \"a.flac\" WAVE\nFILE \"track.flac\" WAVE\nREM DATE 1994")
    2026
    [] [] [String.toList "REM DATE 1994"]
    (String.toList "FILE \"a.flac\" WAVE") (String.toList "FILE \"track.flac\" WAVE")
    (String.toList "FILE ") (String.toList "a.flac") (String.toList " WAVE")
    (by decide) (by decide) (by decide) (by decide) (by decide) (by decide) (by decide)
  exact ⟨h.1, h.2.2.1⟩

/-- C1 (counterexample): a document with two `FILE` lines whose first
declares an empty quoted name is *not* rejected — Python's `if filename:`
treats the empty name as unset, so the scan accepts the second `FILE`
line and the document comes out valid, contradicting the claim that two
`FILE` lines always yield `valid=false`. -/
theorem c1_counterexample :
    ((splitlinesL (String.toList "FILE \"\" WAVE\nFILE \"track.flac\" WAVE\nREM DATE 1994")).filter
        (fun l => Script.isFileDecl (stripL l))).length = 2
    ∧ (Script.process_cue_data (String.toList "d/a.cue") [String.toList "track.flac"]
        .overwriteCue (String.toList "ascii")
        (String.toList "FILE \"\" WAVE\nFILE \"track.flac\" WAVE\nREM DATE 1994")
        2026).ret = true
    ∧ (Script.process_cue_data (String.toList "d/a.cue") [String.toList "track.flac"]
        .overwriteCue (String.toList "ascii")
        (String.toList "FILE \"\" WAVE\nFILE \"track.flac\" WAVE\nREM DATE 1994")
        2026).outcome = .done true false (String.toList "fixed")
    ∧ (Script.process_cue_data (String.toList "d/a.cue") [String.toList "track.flac"]
        .overwriteCue (String.toList "ascii")
        (String.toList "FILE \"\" WAVE\nFILE \"track.flac\" WAVE\nREM DATE 1994")
        2026).actions = [] := by
  refine ⟨by decide, by decide, by decide, by decide⟩

/-- Track-loop resolution only ever rewrites a reference to a member of
the list it searches (the lossless list at the call site). -/
theorem lint_track_resolves_into (files : List PyStr) (t : Pkg.Track) (v cf : Bool) :
    (Pkg.lint_track files t v cf).1.file = t.file
      ∨ ∃ f ∈ files, (Pkg.lint_track files t v cf).1.file = some f := by
  unfold Pkg.lint_track
  rcases t with ⟨i, fl?⟩
  rcases fl? with _ | fl
  · exact Or.inl rfl
  · simp only
    by_cases he : fl.isEmpty = true
    · simp [he]
    · simp only [he, Bool.false_eq_true, if_false]
      by_cases hm : fl ∈ files
      · simp [hm]
      · simp only [hm, if_false]
        rcases hf : files.find? (fun f => (Pkg.pwp_stem fl).isPrefixOf f) with _ | f
        · simp [hf]
        · simp only [hf]
          exact Or.inr ⟨f, List.mem_of_find?_eq_some hf, rfl⟩

/-- C7: the package cue linter validates references against the
directory's lossless list only — a track referencing a compressed file
that exists in the directory but matches no lossless name (not even by
stem) is marked nonexistent (`valid=false`, `can_fix=false`) and counted
invalid, even though the referenced file is present; and stale-extension
recovery only ever rewrites a reference to a member of the searched
(lossless) list. -/
theorem c7_lossless_only (flags : Pkg.LintFlags) (year : Nat)
    (parse : PyStr → Pkg.CueData) (d : Dir.Directory)
    (hnm : Pkg.no_music d = false) (name c : PyStr)
    (hcue : d.cue = [name])
    (hcd : parse (Pkg.fullpath d.path name) = ⟨1, [⟨1, some c⟩], true, false, none⟩)
    (hc1 : c ∈ d.compressed) (hc2 : c ∉ d.lossless) (hcne : ¬ c.isEmpty = true)
    (hstem : ∀ f ∈ d.lossless, (Pkg.pwp_stem c).isPrefixOf f = false) :
    ((Pkg.process_cue flags year (Pkg.fullpath d.path name) d.lossless
        (parse (Pkg.fullpath d.path name))).cue.valid = false
      ∧ (Pkg.process_cue flags year (Pkg.fullpath d.path name) d.lossless
        (parse (Pkg.fullpath d.path name))).cue.can_fix = false
      ∧ (Pkg.process_cue flags year (Pkg.fullpath d.path name) d.lossless
        (parse (Pkg.fullpath d.path name))).d_invalid = 1
      ∧ (Pkg.process_cue flags year (Pkg.fullpath d.path name) d.lossless
        (parse (Pkg.fullpath d.path name))).d_fixed = 0)
    ∧ (Pkg.lint flags year parse d).state.nr_invalid = 1
    ∧ (Pkg.lint flags year parse d).state.nr_deleted = 0
    ∧ (Pkg.lint flags year parse d).state.nr_fixed = 0
    ∧ (∀ (files : List PyStr) (t : Pkg.Track) (v cf : Bool),
        (Pkg.lint_track files t v cf).1.file = t.file
          ∨ ∃ f ∈ files, (Pkg.lint_track files t v cf).1.file = some f) := by
  have hfind : d.lossless.find? (fun f => (Pkg.pwp_stem c).isPrefixOf f) = none := by
    rw [List.find?_eq_none]
    intro f hf
    simp [hstem f hf]
  have htrack : Pkg.lint_track d.lossless ⟨1, some c⟩ true false
      = (⟨1, some c⟩, false, false) := by
    unfold Pkg.lint_track
    simp only [hcne, Bool.false_eq_true, if_false, hc2, hfind]
  have htracks : Pkg.lint_tracks d.lossless [⟨1, some c⟩] true false
      = ([⟨1, some c⟩], false, false) := by
    unfold Pkg.lint_tracks
    rw [htrack]
    rfl
  have hproc : Pkg.process_cue flags year (Pkg.fullpath d.path name) d.lossless
      (parse (Pkg.fullpath d.path name))
      = ⟨⟨1, [⟨1, some c⟩], false, false, none⟩, 1, 0, [], false⟩ := by
    unfold Pkg.process_cue
    rw [hcd]
    simp only [htracks]
    simp
  refine ⟨by rw [hproc]; exact ⟨rfl, rfl, rfl, rfl⟩, ?_⟩
  have hlint : (Pkg.lint flags year parse d).state = ⟨1, 0, 0⟩ := by
    rw [Pkg.lint, hcue]
    simp only [List.foldl_cons, List.foldl_nil]
    unfold Pkg.lint_step
    simp only [hnm, Bool.false_eq_true, if_false, hproc]
    rfl
  rw [hlint]
  exact ⟨rfl, rfl, rfl, lint_track_resolves_into⟩

/-- C7 (witness): a directory holding `a.flac`, `b.mp3` and `x.cue` whose
index references the compressed `b.mp3`: the reference is treated as
nonexistent and the document is unrepairable. -/
theorem c7_lossless_only_witness :
    (Pkg.lint ⟨false, false, false⟩ 2026 Pkg.parseMp3Track
        (Dir.analyze (String.toList "r")
          [String.toList "a.flac", String.toList "b.mp3",
            String.toList "x.cue"])).state.nr_invalid = 1
    ∧ (Pkg.process_cue ⟨false, false, false⟩ 2026
        (Pkg.fullpath (String.toList "r") (String.toList "x.cue"))
        (Dir.analyze (String.toList "r")
          [String.toList "a.flac", String.toList "b.mp3",
            String.toList "x.cue"]).lossless
        (Pkg.parseMp3Track (Pkg.fullpath (String.toList "r")
          (String.toList "x.cue")))).cue.can_fix = false := by
  have h := c7_lossless_only ⟨false, false, false⟩ 2026 Pkg.parseMp3Track
    (Dir.analyze (String.toList "r")
      [String.toList "a.flac", String.toList "b.mp3", String.toList "x.cue"])
    (by decide) (String.toList "x.cue") (String.toList "b.mp3")
    (by decide) (by decide) (by decide) (by decide) (by decide)
    (by decide)
  exact ⟨h.2.1, h.1.2.1⟩

/-- A prefix of an appended list that fits inside the left part is a
prefix of the left part. -/
theorem prefix_append_of_length_le (x A B : PyStr) (h : x <+: A ++ B)
    (hlen : x.length ≤ A.length) : x <+: A := by
  have hx := List.prefix_iff_eq_take.mp h
  rw [List.take_append_eq_append_take, Nat.sub_eq_zero_of_le hlen,
    List.take_zero, List.append_nil] at hx
  rw [hx]
  exact List.take_prefix _ _

/-- A prefix of `A ++ c :: B` longer than `A` contains `c`. -/
theorem mem_of_prefix_crossing (x A B : PyStr) (c : Char) (h : x <+: A ++ c :: B)
    (hlen : A.length < x.length) : c ∈ x := by
  have hx := List.prefix_iff_eq_take.mp h
  rw [List.take_append_eq_append_take, List.take_of_length_le (by omega)] at hx
  have hpos : x.length - A.length = (x.length - A.length - 1) + 1 := by omega
  rw [hpos, List.take_succ_cons] at hx
  rw [hx]
  exact List.mem_append_right _ (List.mem_cons_self _ _)

/-- An occurrence of `x` inside `A ++ c :: B` lies within `A`, contains
the separator `c`, or lies within `B`. -/
theorem infix_append_sep (x A B : PyStr) (c : Char) (h : x <:+: A ++ c :: B) :
    x <:+: A ∨ c ∈ x ∨ x <:+: B := by
  obtain ⟨s, t, hst⟩ := h
  rw [List.append_assoc] at hst
  by_cases h1 : s.length + x.length ≤ A.length
  · left
    have hdrop : (A ++ c :: B).drop s.length = x ++ t := by
      rw [← hst, List.drop_left]
    have hpre : x <+: (A ++ c :: B).drop s.length := by
      rw [hdrop]; exact List.prefix_append x t
    rw [List.drop_append_eq_append_drop,
      Nat.sub_eq_zero_of_le (by omega), List.drop_zero] at hpre
    have hx : x <+: A.drop s.length := by
      refine prefix_append_of_length_le x _ _ hpre ?_
      simp only [List.length_drop]
      omega
    exact hx.isInfix.trans (List.drop_suffix _ _).isInfix
  · by_cases h2 : A.length < s.length
    · right; right
      have hdrop : (A ++ c :: B).drop (A.length + 1) = B := by
        have hsh : A ++ c :: B = (A ++ [c]) ++ B := by simp
        have hl : A.length + 1 = (A ++ [c]).length := by simp
        rw [hsh, hl, List.drop_left]
      rw [← hst, List.drop_append_eq_append_drop,
        Nat.sub_eq_zero_of_le (by omega), List.drop_zero] at hdrop
      exact ⟨s.drop (A.length + 1), t, by rw [List.append_assoc]; exact hdrop⟩
    · right; left
      have hsA : s.length ≤ A.length := Nat.le_of_not_lt h2
      have hdrop : (A ++ c :: B).drop s.length = x ++ t := by
        rw [← hst, List.drop_left]
      have hpre : x <+: (A ++ c :: B).drop s.length := by
        rw [hdrop]; exact List.prefix_append x t
      rw [List.drop_append_eq_append_drop,
        Nat.sub_eq_zero_of_le hsA, List.drop_zero] at hpre
      refine mem_of_prefix_crossing x (A.drop s.length) B c hpre ?_
      simp only [List.length_drop]
      omega

/-- A nonempty prefix of a cons contains the head. -/
theorem head_of_prefix_cons (x : PyStr) (c : Char) (L : PyStr) (hne : x ≠ [])
    (h : x <+: c :: L) : c ∈ x := by
  cases x with
  | nil => exact absurd rfl hne
  | cons a x2 =>
    obtain ⟨t, ht⟩ := h
    rw [List.cons_append] at ht
    injection ht with h1 _
    rw [h1]
    exact List.mem_cons_self _ _

/-- A newline-free pattern that misses every block line and the remainder
does not occur in the blocks-plus-remainder text. -/
theorem not_infix_blocks (x : PyStr) (ls : List PyStr) (R : PyStr) (hne : x ≠ [])
    (hnl : '\n' ∉ x) (hls : ∀ l ∈ ls, ¬ x <:+: l) (hR : ¬ x <:+: R) :
    ¬ x <:+: Py.blocksL ls ++ R := by
  induction ls with
  | nil => simpa [Py.blocksL] using hR
  | cons l ls2 ih =>
    intro h
    have hsh : Py.blocksL (l :: ls2) ++ R = l ++ '\n' :: (Py.blocksL ls2 ++ R) := by
      simp [Py.blocksL]
    rw [hsh] at h
    rcases infix_append_sep x l (Py.blocksL ls2 ++ R) '\n' h with h1 | h1 | h1
    · exact hls l (List.mem_cons_self _ _) h1
    · exact hnl h1
    · exact ih (fun l3 hm => hls l3 (List.mem_cons_of_mem _ hm)) h1

/-- A nonempty newline-free pattern that misses every line of a document
does not occur in the joined document. -/
theorem not_infix_joinLines (x : PyStr) (ls : List PyStr) (hne : x ≠ [])
    (hnl : '\n' ∉ x) (hls : ∀ l ∈ ls, ¬ x <:+: l) : ¬ x <:+: joinLines ls := by
  induction ls with
  | nil =>
    intro h
    exact hne (List.eq_nil_of_infix_nil h)
  | cons l ls2 ih =>
    cases ls2 with
    | nil => simpa [Py.joinLines] using hls l (List.mem_cons_self _ _)
    | cons l2 rest =>
      intro h
      have hj : Py.joinLines (l :: l2 :: rest) = l ++ '\n' :: Py.joinLines (l2 :: rest) := rfl
      rw [hj] at h
      rcases infix_append_sep x l (Py.joinLines (l2 :: rest)) '\n' h with h1 | h1 | h1
      · exact hls l (List.mem_cons_self _ _) h1
      · exact hnl h1
      · exact ih (fun l3 hm => hls l3 (List.mem_cons_of_mem _ hm)) h1

/-- If the text before a candidate position ends with a quote, the pattern
is quote-free, nonempty and absent from the part before the quote, then
the pattern matches at no position inside that leading region. -/
theorem occ_after_quote (x P0 R : PyStr) (hne : x ≠ []) (hq : '"' ∉ x)
    (hP0 : ¬ x <:+: P0) :
    ∀ k, k < P0.length + 1 → ¬ x.isPrefixOf (((P0 ++ ['"']) ++ R).drop k) = true := by
  intro k hk hpre
  rw [List.isPrefixOf_iff_prefix] at hpre
  have hsplit : (P0 ++ ['"']) ++ R = P0 ++ '"' :: R := by simp
  by_cases hcase : k + x.length ≤ P0.length
  · apply hP0
    rw [hsplit, List.drop_append_eq_append_drop,
      Nat.sub_eq_zero_of_le (by omega), List.drop_zero] at hpre
    have hx : x <+: P0.drop k := by
      refine prefix_append_of_length_le x _ _ hpre ?_
      simp only [List.length_drop]
      omega
    exact hx.isInfix.trans (List.drop_suffix _ _).isInfix
  · apply hq
    have hxlen : 0 < x.length := List.length_pos.mpr hne
    have hkle : k ≤ P0.length := by omega
    rw [hsplit, List.drop_append_eq_append_drop,
      Nat.sub_eq_zero_of_le hkle, List.drop_zero] at hpre
    refine mem_of_prefix_crossing x (P0.drop k) R '"' hpre ?_
    simp only [List.length_drop]
    omega

/-- `replaceFuel` leaves the empty string unchanged at any fuel. -/
theorem replaceFuel_nil (pat rep : PyStr) (fuel : Nat) :
    Py.replaceFuel pat rep fuel [] = [] := by
  cases fuel with
  | zero => rfl
  | succ m =>
    cases pat with
    | nil => rw [Py.replaceFuel.eq_def]; simp
    | cons p ps => rw [Py.replaceFuel.eq_def]; simp [List.isPrefixOf]

/-- `replaceFuel` fires when the pattern sits at the head. -/
theorem replaceFuel_succ_pos (pat rep : PyStr) (m : Nat) (S : PyStr) (hp : pat ≠ []) :
    Py.replaceFuel pat rep (m + 1) (pat ++ S) = rep ++ Py.replaceFuel pat rep m S := by
  show (if ¬ pat.isEmpty ∧ pat.isPrefixOf (pat ++ S) then
      rep ++ Py.replaceFuel pat rep m ((pat ++ S).drop pat.length)
    else match pat ++ S with
      | [] => []
      | c :: cs => c :: Py.replaceFuel pat rep m cs)
    = rep ++ Py.replaceFuel pat rep m S
  rw [if_pos ⟨by simp [hp], by
    rw [List.isPrefixOf_iff_prefix]; exact List.prefix_append _ _⟩]
  rw [List.drop_left]

/-- `replaceFuel` steps over a character at which the pattern does not
match. -/
theorem replaceFuel_succ_neg (pat rep : PyStr) (m : Nat) (c : Char) (cs : PyStr)
    (h : ¬ pat.isPrefixOf (c :: cs) = true) :
    Py.replaceFuel pat rep (m + 1) (c :: cs) = c :: Py.replaceFuel pat rep m cs := by
  show (if ¬ pat.isEmpty ∧ pat.isPrefixOf (c :: cs) then
      rep ++ Py.replaceFuel pat rep m ((c :: cs).drop pat.length)
    else match c :: cs with
      | [] => []
      | d :: ds => d :: Py.replaceFuel pat rep m ds)
    = c :: Py.replaceFuel pat rep m cs
  rw [if_neg (fun hcon => h hcon.2)]

/-- A string without an occurrence of the pattern passes through
`replaceFuel` unchanged. -/
theorem replaceFuel_no_occ (pat rep : PyStr) :
    ∀ (S : PyStr) (fuel : Nat), S.length ≤ fuel → ¬ pat <:+: S →
      Py.replaceFuel pat rep fuel S = S := by
  intro S
  induction S with
  | nil => intro fuel _ _; exact replaceFuel_nil pat rep fuel
  | cons c cs ih =>
    intro fuel hfuel hninf
    cases fuel with
    | zero => simp at hfuel
    | succ m =>
      have hnp : ¬ pat.isPrefixOf (c :: cs) = true := by
        rw [List.isPrefixOf_iff_prefix]
        intro hp
        exact hninf hp.isInfix
      rw [replaceFuel_succ_neg pat rep m c cs hnp,
        ih m (by simp only [List.length_cons] at hfuel; omega)
          (fun hinf => hninf (List.infix_cons hinf))]

/-- A region at whose positions the pattern never matches passes through
`replaceFuel` unchanged, consuming its own length of fuel. -/
theorem replaceFuel_skip (pat rep : PyStr) :
    ∀ (A S : PyStr) (fuel : Nat), A.length + S.length ≤ fuel →
      (∀ k, k < A.length → ¬ pat.isPrefixOf ((A ++ S).drop k) = true) →
      Py.replaceFuel pat rep fuel (A ++ S)
        = A ++ Py.replaceFuel pat rep (fuel - A.length) S := by
  intro A
  induction A with
  | nil => intro S fuel _ _; simp
  | cons a A2 ih =>
    intro S fuel hfuel hocc
    cases fuel with
    | zero => simp only [List.length_cons] at hfuel; omega
    | succ m =>
      have h0 := hocc 0 (by simp)
      rw [List.drop_zero] at h0
      rw [List.cons_append, replaceFuel_succ_neg pat rep m a (A2 ++ S) (by
        rw [List.cons_append] at h0; exact h0)]
      rw [ih S m (by simp only [List.length_cons] at hfuel; omega) (fun k hk => by
        have hgot := hocc (k + 1) (by simp only [List.length_cons]; omega)
        rw [List.cons_append] at hgot
        simpa using hgot)]
      have harith : m + 1 - (A2.length + 1) = m - A2.length := by omega
      simp only [List.cons_append, List.length_cons, harith]

/-- `replace` at a single designated occurrence: if the pattern matches
nowhere in the region before the occurrence and nowhere after it, the
replacement rewrites exactly that occurrence. -/
theorem replaceAll_single (pat rep A S : PyStr) (hpne : pat ≠ [])
    (hA : ∀ k, k < A.length → ¬ pat.isPrefixOf ((A ++ (pat ++ S)).drop k) = true)
    (hS : ¬ pat <:+: S) :
    Py.replaceAllL pat rep (A ++ (pat ++ S)) = A ++ (rep ++ S) := by
  unfold Py.replaceAllL
  rw [replaceFuel_skip pat rep A (pat ++ S) _ (by simp) hA]
  have hplen : 0 < pat.length := List.length_pos.mpr hpne
  have hlen : (A ++ (pat ++ S)).length - A.length = (pat.length + S.length - 1) + 1 := by
    simp only [List.length_append]
    omega
  rw [hlen, replaceFuel_succ_pos pat rep _ S hpne,
    replaceFuel_no_occ pat rep S (pat.length + S.length - 1) (by omega) hS]

/-- The FILE declaration line in head-cons form. -/
theorem mkFileLine_eq_cons (g ty : PyStr) :
    Script.mkFileLine g ty
      = 'F' :: (String.toList "ILE \"" ++ (g ++ '"' :: ' ' :: ty)) := by
  show String.toList "FILE \"" ++ g ++ '"' :: ' ' :: ty = _
  rw [(by decide : String.toList "FILE \"" = 'F' :: String.toList "ILE \"")]
  simp

/-- `lstrip` keeps a string whose first character is not whitespace. -/
theorem lstrip_cons_nonspace (c : Char) (s : PyStr) (h : Py.isSpaceCh c = false) :
    Py.lstripL (c :: s) = c :: s := by
  simp [Py.lstripL, List.dropWhile_cons, h]

/-- `rstrip` passes unchanged through the last non-space character of the
left part. -/
theorem rstrip_through (A B : PyStr) (q : Char) (hq : Py.isSpaceCh q = false) :
    Py.rstripL (A ++ q :: B) = A ++ q :: Py.rstripL B := by
  unfold Py.rstripL
  rw [show (A ++ q :: B).reverse = B.reverse ++ (q :: A.reverse) by simp]
  rw [List.dropWhile_append]
  by_cases hb : (B.reverse.dropWhile Py.isSpaceCh).isEmpty
  · rw [if_pos hb]
    have hB : B.reverse.dropWhile Py.isSpaceCh = [] := by
      simpa [List.isEmpty_iff] using hb
    rw [List.dropWhile_cons, hq]
    simp [hB]
  · rw [if_neg hb]
    simp

/-- Membership in an `rstrip` result reflects to the original string. -/
theorem mem_of_mem_rstripL (s : PyStr) (c : Char) (h : c ∈ Py.rstripL s) : c ∈ s := by
  unfold Py.rstripL at h
  rw [List.mem_reverse] at h
  have h2 := (List.dropWhile_sublist (l := s.reverse) (p := Py.isSpaceCh)).subset h
  rwa [List.mem_reverse] at h2

/-- Stripping a FILE declaration line only trims the declared type's
trailing whitespace. -/
theorem strip_mkFileLine (g ty : PyStr) :
    Py.stripL (Script.mkFileLine g ty)
      = (String.toList "FILE \"" ++ g) ++ '"' :: Py.rstripL (' ' :: ty) := by
  unfold Py.stripL
  rw [mkFileLine_eq_cons, lstrip_cons_nonspace 'F' _ (by decide)]
  rw [show 'F' :: (String.toList "ILE \"" ++ (g ++ '"' :: ' ' :: ty))
      = (String.toList "FILE \"" ++ g) ++ '"' :: (' ' :: ty) by
    rw [(by decide : String.toList "FILE \"" = 'F' :: String.toList "ILE \"")]
    simp]
  rw [rstrip_through _ _ '"' (by decide)]

/-- A stripped FILE declaration line is recognised as one. -/
theorem isFileDecl_mkFileLine (g ty : PyStr) :
    Script.isFileDecl (Py.stripL (Script.mkFileLine g ty)) = true := by
  rw [Script.isFileDecl, strip_mkFileLine]
  rw [List.isPrefixOf_iff_prefix]
  rw [(by decide : String.toList "FILE \"" = String.toList "FILE" ++ [' ', '"'])]
  simp only [List.append_assoc, List.cons_append]
  exact List.prefix_append _ _

/-- The split of a separator-free region passes it into the accumulator. -/
theorem splitCharGo_no_sep (sep : Char) :
    ∀ (u cur rest : PyStr), sep ∉ u →
      Py.splitCharGo sep cur (u ++ rest)
        = Py.splitCharGo sep (u.reverse ++ cur) rest := by
  intro u
  induction u with
  | nil => intro cur rest _; simp
  | cons c u2 ih =>
    intro cur rest hmem
    have hc : ¬ c = sep := fun h => hmem (by rw [h]; exact List.mem_cons_self _ _)
    rw [List.cons_append]
    show (if c = sep then cur.reverse :: Py.splitCharGo sep [] (u2 ++ rest)
      else Py.splitCharGo sep (c :: cur) (u2 ++ rest)) = _
    rw [if_neg hc, ih (c :: cur) rest (fun h => hmem (List.mem_cons_of_mem _ h))]
    simp

/-- The split emits the accumulated field at a separator. -/
theorem splitCharGo_sep_head (sep : Char) (cur rest : PyStr) :
    Py.splitCharGo sep cur (sep :: rest)
      = cur.reverse :: Py.splitCharGo sep [] rest := by
  show (if sep = sep then cur.reverse :: Py.splitCharGo sep [] rest
    else Py.splitCharGo sep (sep :: cur) rest) = _
  rw [if_pos rfl]

/-- Splitting on the quote character a string with exactly two quotes
yields exactly the three delimited fields. -/
theorem splitChar_quote3 (u v w : PyStr) (hu : '"' ∉ u) (hv : '"' ∉ v) (hw : '"' ∉ w) :
    Py.splitCharL '"' (u ++ '"' :: (v ++ '"' :: w)) = [u, v, w] := by
  unfold Py.splitCharL
  rw [splitCharGo_no_sep '"' u [] _ hu, splitCharGo_sep_head]
  rw [splitCharGo_no_sep '"' v [] _ hv, splitCharGo_sep_head]
  have hfin : Py.splitCharGo '"' [] w = [w] := by
    rw [show Py.splitCharGo '"' ([] : PyStr) w
        = Py.splitCharGo '"' ([] : PyStr) (w ++ []) by simp,
      splitCharGo_no_sep '"' w [] [] hw]
    simp [Py.splitCharGo]
  rw [hfin]
  simp

/-- The quote split of a stripped FILE declaration line: keyword, quoted
name, trimmed type. -/
theorem splitChar_strip_mkFileLine (g ty : PyStr) (hg : '"' ∉ g) (hty : '"' ∉ ty) :
    Py.splitCharL '"' (Py.stripL (Script.mkFileLine g ty))
      = [String.toList "FILE ", g, Py.rstripL (' ' :: ty)] := by
  rw [strip_mkFileLine]
  rw [show (String.toList "FILE \"" ++ g) ++ '"' :: Py.rstripL (' ' :: ty)
      = String.toList "FILE " ++ '"' :: (g ++ '"' :: Py.rstripL (' ' :: ty)) by
    rw [(by decide : String.toList "FILE \"" = String.toList "FILE " ++ ['"'])]
    simp]
  refine splitChar_quote3 _ _ _ (by decide) hg (fun hmem => ?_)
  rcases List.mem_cons.mp (mem_of_mem_rstripL _ '"' hmem) with h | h
  · exact absurd h (by decide)
  · exact hty h

/-- The splitter consumes a boundary-free region into the accumulator. -/
theorem splitlinesGo_no_lb :
    ∀ (l cur rest : PyStr), (∀ c ∈ l, Py.isLineBreakCh c = false) →
      Py.splitlinesGo cur (l ++ rest) = Py.splitlinesGo (l.reverse ++ cur) rest := by
  intro l
  induction l with
  | nil => intro cur rest _; simp
  | cons c l2 ih =>
    intro cur rest hlb
    have hc : Py.isLineBreakCh c = false := hlb c (List.mem_cons_self _ _)
    have hcr : ¬ c = '\r' := by
      intro h
      rw [h] at hc
      exact absurd hc (by decide)
    rcases hrest : l2 ++ rest with _ | ⟨d, t⟩
    · have hl2 : l2 = [] := (List.append_eq_nil.mp hrest).1
      have hr : rest = [] := (List.append_eq_nil.mp hrest).2
      subst hl2; subst hr
      simp [Py.splitlinesGo, hc]
    · rw [List.cons_append, hrest]
      show (if c = '\r' ∧ d = '\n' then cur.reverse :: Py.splitlinesGo [] t
        else if Py.isLineBreakCh c then cur.reverse :: Py.splitlinesGo [] (d :: t)
        else Py.splitlinesGo (c :: cur) (d :: t)) = _
      rw [if_neg (fun hcon => hcr hcon.1), if_neg (by rw [hc]; exact Bool.false_ne_true)]
      rw [← hrest, ih (c :: cur) rest (fun x hx => hlb x (List.mem_cons_of_mem _ hx))]
      simp

/-- A joined document is empty only for no lines or one empty line. -/
theorem joinLines_eq_nil_cases (ls : List PyStr) (h : Py.joinLines ls = []) :
    ls = [] ∨ ls = [[]] := by
  match ls with
  | [] => exact Or.inl rfl
  | [l] =>
    right
    have : l = [] := h
    rw [this]
  | l :: l2 :: rest =>
    exfalso
    have hj : Py.joinLines (l :: l2 :: rest) = l ++ '\n' :: Py.joinLines (l2 :: rest) := rfl
    rw [hj] at h
    rcases List.append_eq_nil.mp h with ⟨-, h2⟩
    exact List.cons_ne_nil _ _ h2

/-- Round trip: splitting a joined document recovers the lines, provided
no line holds a boundary character and the last line is nonempty. -/
theorem splitlines_join (ls : List PyStr)
    (hnb : ∀ l ∈ ls, ∀ c ∈ l, Py.isLineBreakCh c = false)
    (hlast : ls.getLast? ≠ some []) :
    Py.splitlinesL (Py.joinLines ls) = ls := by
  induction ls with
  | nil => rfl
  | cons l ls2 ih =>
    cases ls2 with
    | nil =>
      have hlne : l ≠ [] := by
        intro h
        rw [h] at hlast
        exact hlast (by simp)
      show Py.splitlinesGo [] (Py.joinLines [l]) = [l]
      have hj : Py.joinLines [l] = l := rfl
      rw [hj]
      have h2 := splitlinesGo_no_lb l [] [] (hnb l (List.mem_cons_self _ _))
      rw [List.append_nil] at h2
      rw [h2]
      simp [Py.splitlinesGo, hlne]
    | cons l2 rest =>
      show Py.splitlinesGo [] (Py.joinLines (l :: l2 :: rest)) = _
      have hj : Py.joinLines (l :: l2 :: rest)
          = l ++ '\n' :: Py.joinLines (l2 :: rest) := rfl
      rw [hj, splitlinesGo_no_lb l [] _ (hnb l (List.mem_cons_self _ _)),
        List.append_nil]
      rcases hJ : Py.joinLines (l2 :: rest) with _ | ⟨d, t⟩
      · exfalso
        rcases joinLines_eq_nil_cases (l2 :: rest) hJ with h | h
        · exact List.cons_ne_nil _ _ h
        · have hl2 : l2 = [] := (List.cons.injEq _ _ _ _).mp h |>.1
          have hrest : rest = [] := (List.cons.injEq _ _ _ _).mp h |>.2
          subst hl2; subst hrest
          exact hlast (by simp)
      · show (if '\n' = '\r' ∧ d = '\n' then l.reverse.reverse :: Py.splitlinesGo [] t
          else if Py.isLineBreakCh '\n' then l.reverse.reverse :: Py.splitlinesGo [] (d :: t)
          else Py.splitlinesGo ('\n' :: l.reverse) (d :: t)) = _
        rw [if_neg (by intro hcon; exact absurd hcon.1 (by decide)), if_pos (by decide)]
        rw [List.reverse_reverse, ← hJ]
        have ihres := ih (fun l3 h3 => hnb l3 (List.mem_cons_of_mem _ h3)) (by
          rw [List.getLast?_cons_cons] at hlast
          exact hlast)
        rw [show Py.splitlinesGo ([] : PyStr) (Py.joinLines (l2 :: rest))
            = Py.splitlinesL (Py.joinLines (l2 :: rest)) from rfl, ihres]

/-- Decomposition of a joined document around a distinguished line. -/
theorem joinLines_decomp (pre : List PyStr) (y : PyStr) (zs : List PyStr) :
    Py.joinLines (pre ++ y :: zs)
      = Py.blocksL pre ++ (y ++ (if zs.isEmpty then [] else '\n' :: Py.joinLines zs)) := by
  induction pre with
  | nil =>
    simp only [List.nil_append, Py.blocksL]
    cases zs with
    | nil => simp [Py.joinLines]
    | cons z zs2 =>
      have hj : Py.joinLines (y :: z :: zs2) = y ++ '\n' :: Py.joinLines (z :: zs2) := rfl
      simp [hj]
  | cons p pre2 ih =>
    rcases hsh : pre2 ++ y :: zs with _ | ⟨d, t⟩
    · exact absurd hsh (by simp)
    · rw [List.cons_append, hsh]
      show p ++ '\n' :: Py.joinLines (d :: t) = _
      rw [← hsh, ih]
      simp [Py.blocksL]

/-- No character of a FILE declaration line is a line boundary, given the
name and type are boundary-free. -/
theorem mkFileLine_lb_free (g ty : PyStr)
    (hg : ∀ c ∈ g, Py.isLineBreakCh c = false)
    (hty : ∀ c ∈ ty, Py.isLineBreakCh c = false) :
    ∀ c ∈ Script.mkFileLine g ty, Py.isLineBreakCh c = false := by
  intro c hc
  unfold Script.mkFileLine at hc
  rcases List.mem_append.mp hc with h | h
  · rcases List.mem_append.mp h with h2 | h2
    · exact (by decide : ∀ x ∈ String.toList "FILE \"", Py.isLineBreakCh x = false) c h2
    · exact hg c h2
  · rcases List.mem_cons.mp h with h3 | h3
    · rw [h3]; decide
    · rcases List.mem_cons.mp h3 with h4 | h4
      · rw [h4]; decide
      · exact hty c h4

/-- Splitting a joined document holding one FILE declaration line recovers
its lines. -/
theorem splitlines_doc (pre post : List PyStr) (g ty : PyStr)
    (hg : ∀ c ∈ g, Py.isLineBreakCh c = false)
    (hty : ∀ c ∈ ty, Py.isLineBreakCh c = false)
    (hprelb : ∀ l ∈ pre, ∀ c ∈ l, Py.isLineBreakCh c = false)
    (hpostlb : ∀ l ∈ post, ∀ c ∈ l, Py.isLineBreakCh c = false)
    (hpostne : post.getLast? ≠ some []) :
    Py.splitlinesL (Py.joinLines (pre ++ Script.mkFileLine g ty :: post))
      = pre ++ Script.mkFileLine g ty :: post := by
  refine splitlines_join _ (fun l hl => ?_) ?_
  · rcases List.mem_append.mp hl with h | h
    · exact hprelb l h
    · rcases List.mem_cons.mp h with h2 | h2
      · rw [h2]; exact mkFileLine_lb_free g ty hg hty
      · exact hpostlb l h2
  · rw [List.getLast?_append,
      Option.or_of_isSome (List.getLast?_isSome.mpr (List.cons_ne_nil _ _))]
    cases post with
    | nil =>
      intro hcon
      have hz : Script.mkFileLine g ty = [] := by
        simpa using hcon
      rw [mkFileLine_eq_cons] at hz
      exact List.cons_ne_nil _ _ hz
    | cons q qs =>
      rw [List.getLast?_cons_cons]
      exact hpostne

/-- The scan of a run of non-FILE lines succeeds, folding the date. -/
theorem scanLines_no_file (ls : List PyStr)
    (hNF : ∀ l ∈ ls, Script.isFileDecl (Py.stripL l) = false)
    (fn d : Option PyStr) :
    Script.scanLines fn d ls = .ok (fn, Script.foldDate ls d) := by
  have h := scanLines_append_skip ls hNF [] fn d
  rw [List.append_nil] at h
  rw [h, Script.scanLines]

/-- The scan of a document with exactly one FILE declaration line captures
its quoted name and the folded date. -/
theorem scan_doc (pre post : List PyStr) (g ty : PyStr)
    (hpreNF : ∀ l ∈ pre, Script.isFileDecl (Py.stripL l) = false)
    (hpostNF : ∀ l ∈ post, Script.isFileDecl (Py.stripL l) = false)
    (hg : '"' ∉ g) (hty : '"' ∉ ty) :
    Script.scanLines none none (pre ++ Script.mkFileLine g ty :: post)
      = .ok (some g, Script.foldDate post (Script.foldDate pre none)) := by
  rw [scanLines_append_skip pre hpreNF]
  rw [Script.scanLines]
  simp only [isFileDecl_mkFileLine, if_true, strTruthy, Bool.false_eq_true, if_false,
    splitChar_strip_mkFileLine g ty hg hty]
  rw [scanLines_no_file post hpostNF]

/-- Analysis of a well-dated document whose FILE reference is present in
the directory's audio list, under an accepted encoding: valid, nothing to
fix, content untouched. -/
theorem analyze_doc_found (cuePath : PyStr) (files : List PyStr) (detected : PyStr)
    (year : Nat) (pre post : List PyStr) (g ty : PyStr)
    (hgq : '"' ∉ g) (hgne : g ≠ [])
    (hglb : ∀ c ∈ g, Py.isLineBreakCh c = false)
    (hqty : '"' ∉ ty) (htylb : ∀ c ∈ ty, Py.isLineBreakCh c = false)
    (hprelb : ∀ l ∈ pre, ∀ c ∈ l, Py.isLineBreakCh c = false)
    (hpostlb : ∀ l ∈ post, ∀ c ∈ l, Py.isLineBreakCh c = false)
    (hpreNF : ∀ l ∈ pre, Script.isFileDecl (Py.stripL l) = false)
    (hpostNF : ∀ l ∈ post, Script.isFileDecl (Py.stripL l) = false)
    (hpostne : post.getLast? ≠ some [])
    (hdate : Py.strTruthy (Script.foldDate post (Script.foldDate pre none)) = true)
    (hdet : detected ∈ Script.CUE_ENCODING)
    (hmem : g ∈ files) :
    Script.analyze_cue cuePath files detected
        (Py.joinLines (pre ++ Script.mkFileLine g ty :: post)) year
      = ⟨.done true false (String.toList "fixed"),
          Py.joinLines (pre ++ Script.mkFileLine g ty :: post), true, none⟩ := by
  unfold Script.analyze_cue
  rw [splitlines_doc pre post g ty hglb htylb hprelb hpostlb hpostne]
  rw [scan_doc pre post g ty hpreNF hpostNF hgq hqty]
  have htr : Py.strTruthy (some g) = true := by
    simp [Py.strTruthy, hgne]
  simp only [htr, if_true, Option.getD_some, hmem, if_pos, hdate, hdet]
  simp [hdate, hdet]

/-- Analysis of a well-dated document whose FILE reference is absent but
tuple-matches a directory file: invalid, repairable with the resolved
file's lower-cased extension as tag, and the in-memory content rewritten
line-preservingly to reference the resolved file. -/
theorem analyze_doc_stale (cuePath : PyStr) (files : List PyStr) (detected : PyStr)
    (year : Nat) (pre post : List PyStr) (fname ty f : PyStr)
    (hq : '"' ∉ fname) (hfnne : fname ≠ [])
    (hnl : ∀ c ∈ fname, Py.isLineBreakCh c = false)
    (hqty : '"' ∉ ty) (htylb : ∀ c ∈ ty, Py.isLineBreakCh c = false)
    (hprelb : ∀ l ∈ pre, ∀ c ∈ l, Py.isLineBreakCh c = false)
    (hpostlb : ∀ l ∈ post, ∀ c ∈ l, Py.isLineBreakCh c = false)
    (hpreNF : ∀ l ∈ pre, Script.isFileDecl (Py.stripL l) = false)
    (hpostNF : ∀ l ∈ post, Script.isFileDecl (Py.stripL l) = false)
    (hpostne : post.getLast? ≠ some [])
    (hdate : Py.strTruthy (Script.foldDate post (Script.foldDate pre none)) = true)
    (hnot : fname ∉ files)
    (hfind : Script.findTupleMatch files fname = some f)
    (hpre_inf : ∀ l ∈ pre, ¬ fname <:+: l)
    (hpost_inf : ∀ l ∈ post, ¬ fname <:+: l)
    (hFILE_inf : ¬ fname <:+: String.toList "FILE ")
    (hty_inf : ¬ fname <:+: ' ' :: ty) :
    Script.analyze_cue cuePath files detected
        (Py.joinLines (pre ++ Script.mkFileLine fname ty :: post)) year
      = ⟨.done false true (Script.fileextlow f),
          Py.joinLines (pre ++ Script.mkFileLine f ty :: post), true, none⟩ := by
  have hnlc : '\n' ∉ fname := fun hmem => absurd (hnl '\n' hmem) (by decide)
  have hrepl : Py.replaceAllL fname f
      (Py.joinLines (pre ++ Script.mkFileLine fname ty :: post))
      = Py.joinLines (pre ++ Script.mkFileLine f ty :: post) := by
    rw [joinLines_decomp pre (Script.mkFileLine fname ty) post,
      joinLines_decomp pre (Script.mkFileLine f ty) post]
    have hsh1 : Py.blocksL pre ++ (Script.mkFileLine fname ty
        ++ (if post.isEmpty then ([] : PyStr) else '\n' :: Py.joinLines post))
        = (Py.blocksL pre ++ String.toList "FILE \"")
          ++ (fname ++ ('"' :: ' ' :: (ty
            ++ (if post.isEmpty then ([] : PyStr) else '\n' :: Py.joinLines post)))) := by
      unfold Script.mkFileLine
      simp [List.append_assoc]
    have hsh2 : Py.blocksL pre ++ (Script.mkFileLine f ty
        ++ (if post.isEmpty then ([] : PyStr) else '\n' :: Py.joinLines post))
        = (Py.blocksL pre ++ String.toList "FILE \"")
          ++ (f ++ ('"' :: ' ' :: (ty
            ++ (if post.isEmpty then ([] : PyStr) else '\n' :: Py.joinLines post)))) := by
      unfold Script.mkFileLine
      simp [List.append_assoc]
    rw [hsh1, hsh2]
    have hP0 : ¬ fname <:+: (Py.blocksL pre ++ String.toList "FILE ") :=
      not_infix_blocks fname pre _ hfnne hnlc hpre_inf hFILE_inf
    have hA : Py.blocksL pre ++ String.toList "FILE \""
        = (Py.blocksL pre ++ String.toList "FILE ") ++ ['"'] := by
      rw [(by decide : String.toList "FILE \"" = String.toList "FILE " ++ ['"'])]
      simp [List.append_assoc]
    refine replaceAll_single fname f _ _ hfnne ?_ ?_
    · intro k hk
      rw [hA] at hk ⊢
      refine occ_after_quote fname (Py.blocksL pre ++ String.toList "FILE ")
        (fname ++ ('"' :: ' ' :: (ty
          ++ (if post.isEmpty then ([] : PyStr) else '\n' :: Py.joinLines post))))
        hfnne hq hP0 k ?_
      simp only [List.length_append, List.length_cons, List.length_nil] at hk ⊢
      omega
    · intro hinf
      rcases List.infix_cons_iff.mp hinf with hp | hi
      · exact hq (head_of_prefix_cons _ _ _ hfnne hp)
      · by_cases hpe : post.isEmpty
        · rw [if_pos hpe, List.append_nil] at hi
          exact hty_inf hi
        · rw [if_neg hpe] at hi
          have hsh : ' ' :: (ty ++ '\n' :: Py.joinLines post)
              = (' ' :: ty) ++ '\n' :: Py.joinLines post := by simp
          rw [hsh] at hi
          rcases infix_append_sep fname (' ' :: ty) (Py.joinLines post) '\n' hi
            with h1 | h1 | h1
          · exact hty_inf h1
          · exact hnlc h1
          · exact not_infix_joinLines fname post hfnne hnlc hpost_inf h1
  unfold Script.analyze_cue
  rw [splitlines_doc pre post fname ty hnl htylb hprelb hpostlb hpostne]
  rw [scan_doc pre post fname ty hpreNF hpostNF hq hqty]
  have htr : Py.strTruthy (some fname) = true := by
    simp [Py.strTruthy, hfnne]
  simp only [htr, if_true, Option.getD_some]
  rw [if_neg hnot]
  simp only [hfind]
  simp [hdate, hrepl]

/-- C3 (amended): stale-extension repair round trip.  For a document with
a single well-formed `FILE` line whose quoted name is absent from the
directory's audio list, if the tuple search (Python's
`startswith((stem, extension))`: the first file in list order starting
with the extension-stripped stem *or* with the dotted extension) resolves
a file, the analysis marks valid=false, canRepair=true with the resolved
file's lower-cased extension as suffix tag, the in-memory content has
exactly the reference rewritten, and a re-parse of the repaired content
under an accepted encoding is valid, fixes nothing, performs no
filesystem action and leaves the content unchanged — repair is
idempotent. -/
theorem c3_stale_extension_roundtrip
    (cuePath : PyStr) (files : List PyStr) (fixCue fixCue2 : Script.CueFix)
    (detected detected2 : PyStr) (year : Nat)
    (pre post : List PyStr) (fname ty f : PyStr)
    (hq : '"' ∉ fname) (hfnne : fname ≠ [])
    (hnl : ∀ c ∈ fname, Py.isLineBreakCh c = false)
    (hqty : '"' ∉ ty) (htylb : ∀ c ∈ ty, Py.isLineBreakCh c = false)
    (hprelb : ∀ l ∈ pre, ∀ c ∈ l, Py.isLineBreakCh c = false)
    (hpostlb : ∀ l ∈ post, ∀ c ∈ l, Py.isLineBreakCh c = false)
    (hpreNF : ∀ l ∈ pre, Script.isFileDecl (Py.stripL l) = false)
    (hpostNF : ∀ l ∈ post, Script.isFileDecl (Py.stripL l) = false)
    (hpostne : post.getLast? ≠ some [])
    (hdate : Py.strTruthy (Script.foldDate post (Script.foldDate pre none)) = true)
    (hnot : fname ∉ files)
    (hfind : Script.findTupleMatch files fname = some f)
    (hfne : f ≠ []) (hfq : '"' ∉ f)
    (hflb : ∀ c ∈ f, Py.isLineBreakCh c = false)
    (hpre_inf : ∀ l ∈ pre, ¬ fname <:+: l)
    (hpost_inf : ∀ l ∈ post, ¬ fname <:+: l)
    (hFILE_inf : ¬ fname <:+: String.toList "FILE ")
    (hty_inf : ¬ fname <:+: ' ' :: ty)
    (hdet2 : detected2 ∈ Script.CUE_ENCODING) :
    (Script.analyze_cue cuePath files detected
        (Py.joinLines (pre ++ Script.mkFileLine fname ty :: post)) year).outcome
      = .done false true (Script.fileextlow f)
    ∧ (Script.process_cue_data cuePath files fixCue detected
        (Py.joinLines (pre ++ Script.mkFileLine fname ty :: post)) year).content
      = Py.joinLines (pre ++ Script.mkFileLine f ty :: post)
    ∧ Script.process_cue_data cuePath files fixCue2 detected2
        (Py.joinLines (pre ++ Script.mkFileLine f ty :: post)) year
      = ⟨.done true false (String.toList "fixed"),
          Py.joinLines (pre ++ Script.mkFileLine f ty :: post), [], true⟩ := by
  have hmem : f ∈ files := by
    have hfind2 := hfind
    unfold Script.findTupleMatch at hfind2
    exact List.mem_of_find?_eq_some hfind2
  have hana := analyze_doc_stale cuePath files detected year pre post fname ty f
    hq hfnne hnl hqty htylb hprelb hpostlb hpreNF hpostNF hpostne hdate hnot hfind
    hpre_inf hpost_inf hFILE_inf hty_inf
  refine ⟨by rw [hana], ?_, ?_⟩
  · rw [Script.process_cue_data, hana]
    unfold Script.finalizeCue
    by_cases hfx : 2 ≤ fixCue.toNat
    · simp [hfx]
    · simp [hfx]
  · have hana2 := analyze_doc_found cuePath files detected2 year pre post f ty
      hfq hfne hflb hqty htylb hprelb hpostlb hpreNF hpostNF hpostne hdate hdet2 hmem
    rw [Script.process_cue_data, hana2]
    unfold Script.finalizeCue
    simp

/-- C3 (witness): `FILE "track.wav" WAVE` with only `track.flac` in the
directory, dated document: the reference is rewritten to `track.flac`
with suffix tag `flac`, and re-parsing the repaired content is valid and
changes nothing. -/
theorem c3_stale_extension_roundtrip_witness :
    (Script.analyze_cue (String.toList "d/a.cue") [String.toList "track.flac"]
        (String.toList "ascii")
        (Py.joinLines ([String.toList "REM DATE 1994"]
          ++ Script.mkFileLine (String.toList "track.wav") (String.toList "WAVE") :: []))
        2024).outcome
      = .done false true (String.toList "flac")
    ∧ (Script.process_cue_data (String.toList "d/a.cue") [String.toList "track.flac"]
        .newCue (String.toList "ascii")
        (Py.joinLines ([String.toList "REM DATE 1994"]
          ++ Script.mkFileLine (String.toList "track.wav") (String.toList "WAVE") :: []))
        2024).content
      = Py.joinLines ([String.toList "REM DATE 1994"]
          ++ Script.mkFileLine (String.toList "track.flac") (String.toList "WAVE") :: [])
    ∧ Script.process_cue_data (String.toList "d/a.cue") [String.toList "track.flac"]
        .newCue (String.toList "UTF-8-SIG")
        (Py.joinLines ([String.toList "REM DATE 1994"]
          ++ Script.mkFileLine (String.toList "track.flac") (String.toList "WAVE") :: []))
        2024
      = ⟨.done true false (String.toList "fixed"),
          Py.joinLines ([String.toList "REM DATE 1994"]
            ++ Script.mkFileLine (String.toList "track.flac") (String.toList "WAVE") :: []),
          [], true⟩ := by
  have h := c3_stale_extension_roundtrip (String.toList "d/a.cue")
    [String.toList "track.flac"] .newCue .newCue
    (String.toList "ascii") (String.toList "UTF-8-SIG") 2024
    [String.toList "REM DATE 1994"] [] (String.toList "track.wav")
    (String.toList "WAVE") (String.toList "track.flac")
    (by decide) (by decide) (by decide) (by decide) (by decide) (by decide)
    (by decide) (by decide) (by decide) (by decide) (by decide) (by decide)
    (by decide) (by decide) (by decide) (by decide) (by decide) (by decide)
    (by decide) (by decide) (by decide)
  refine ⟨?_, h.2.1, h.2.2⟩
  rw [h.1]
  decide

/-- C3 (counterexample): the claim's "first classified file whose name
starts with the stem" misreads the code.  `os.path.splitext` returns a
pair, so Python's `f.startswith(basename)` also accepts a file starting
with the dotted extension: with directory files `.wavx, track.flac` and
reference `track.wav`, the stem-first rule picks `track.flac`, but the
code resolves `.wavx` (first match on extension `.wav`), rewrites the
content to reference `.wavx`, and tags the repair with its empty
extension. -/
theorem c3_counterexample :
    ([String.toList ".wavx", String.toList "track.flac"].find?
        (fun g => (Py.splitextL (String.toList "track.wav")).1.isPrefixOf g))
      = some (String.toList "track.flac")
    ∧ Script.findTupleMatch [String.toList ".wavx", String.toList "track.flac"]
        (String.toList "track.wav")
      = some (String.toList ".wavx")
    ∧ (Script.analyze_cue (String.toList "d/a.cue")
        [String.toList ".wavx", String.toList "track.flac"] (String.toList "ascii")
        (String.toList "FILE \"track.wav\" WAVE\nREM DATE 1994") 2024).outcome
      = .done false true []
    ∧ (Script.analyze_cue (String.toList "d/a.cue")
        [String.toList ".wavx", String.toList "track.flac"] (String.toList "ascii")
        (String.toList "FILE \"track.wav\" WAVE\nREM DATE 1994") 2024).content
      = String.toList "FILE \".wavx\" WAVE\nREM DATE 1994" := by
  refine ⟨by decide, by decide, by decide, by decide⟩
